import Mathlib

/-!
Shallow embedding of the chapter-outline pipeline of
`src/chat_interface.py` (parser, validator, serialiser, renderer,
retry engine, orchestrator and the chapter reconciliation helpers),
together with theorems settling the frozen claims about it.

Text is modelled as `List Char`.  The Python regular-expression class
`\s` (and `str.strip` / `str.splitlines`) is modelled on the ASCII
whitespace characters; all concrete inputs appearing in the claims and
in the witnesses are ASCII.
-/

set_option maxRecDepth 4000

namespace BookPipeline

/-- Text is a list of characters. -/
abbrev Str := List Char

/-- ASCII whitespace, the characters matched by the regex class `\s`
and stripped by `str.strip`. -/
def pyIsSpace (c : Char) : Bool :=
  c = ' ' || c = '\t' || c = '\n' || c = '\r' || c = '\x0b' || c = '\x0c'

/-- Decimal digit test, the regex class `\d` (ASCII). -/
def pyIsDigit (c : Char) : Bool :=
  48 ≤ c.toNat && c.toNat ≤ 57

/-- `str.lstrip()`: drop leading whitespace. -/
def lstrip (s : Str) : Str := s.dropWhile pyIsSpace

/-- `str.rstrip()`: drop trailing whitespace. -/
def rstrip (s : Str) : Str := (s.reverse.dropWhile pyIsSpace).reverse

/-- `str.strip()`: drop whitespace on both ends. -/
def strip (s : Str) : Str := rstrip (lstrip s)

/-- `str.splitlines()`: split on newlines, no entry for a trailing
newline, and the empty string yields no lines. -/
def splitlines : Str → List Str
  | [] => []
  | c :: rest =>
    if c = '\n' then [] :: splitlines rest
    else
      match splitlines rest with
      | [] => [[c]]
      | l :: ls => (c :: l) :: ls

/-- `"\n".join`-style concatenation with a separator string. -/
def joinSep (sep : Str) : List Str → Str
  | [] => []
  | [s] => s
  | s :: rest => s ++ sep ++ joinSep sep rest

/-- State machine for `re.sub(r"\s+", " ", value)`: every maximal run
of whitespace becomes a single space.  The flag records whether the
previous character was whitespace. -/
def collapseWS : Bool → Str → Str
  | _, [] => []
  | inWS, c :: cs =>
    if pyIsSpace c then
      if inWS then collapseWS true cs else ' ' :: collapseWS true cs
    else c :: collapseWS false cs

/-- `_normalise_whitespace`: collapse whitespace runs to single spaces
then strip the ends (`re.sub(r"\s+", " ", value or "").strip()`). -/
def normaliseWhitespace (s : Str) : Str := strip (collapseWS false s)

/-- The decimal digit character for `d < 10`. -/
def digitChar (d : Nat) : Char :=
  if d = 0 then '0' else if d = 1 then '1' else if d = 2 then '2'
  else if d = 3 then '3' else if d = 4 then '4' else if d = 5 then '5'
  else if d = 6 then '6' else if d = 7 then '7' else if d = 8 then '8' else '9'

/-- Decimal rendering of a natural number, fuelled so that it reduces
definitionally (`str(n)` for a non-negative Python int). -/
def natReprAux : Nat → Nat → Str
  | 0, _ => []
  | fuel + 1, n =>
    if n < 10 then [digitChar n]
    else natReprAux fuel (n / 10) ++ [digitChar (n % 10)]

/-- `str(n)` for a natural number. -/
def natRepr (n : Nat) : Str := natReprAux (n + 1) n

/-- `str(i)` for a Python int (possibly negative). -/
def intRepr (i : Int) : Str :=
  if i < 0 then '-' :: natRepr i.natAbs else natRepr i.natAbs

/-- Numeric value of a list of decimal digits (`int(digits)`). -/
def digitsToNat (s : Str) : Nat :=
  s.foldl (fun acc c => 10 * acc + (c.toNat - 48)) 0

/-- Case-insensitive literal match (the patterns carry `re.IGNORECASE`):
consume `lit` from the front of `s`, returning the remainder. -/
def eatLiteralCI : Str → Str → Option Str
  | [], s => some s
  | _, [] => none
  | l :: ls, c :: cs => if c.toLower = l.toLower then eatLiteralCI ls cs else none

/-- The dash alternatives `[—–-]` of the header patterns. -/
def isDashSep (c : Char) : Bool :=
  c = '—' || c = '–' || c = '-'

/-- `_CHAPTER_HEADER_PATTERN.match(line)`, the anchored pattern
`^\s*Chapter\s*:\s*Chapter\s+(\d+)\s*[—–-]\s*(.*)$` (IGNORECASE),
returning `(int(group(1)), group(2))` on success.  Each `\s*`/`\s+`/`\d+`
is a maximal run: every bounded repetition here is followed by a
character it cannot match, so the backtracking regex is equivalent to
this deterministic scanner.  Inputs are single lines (no `'\n'`). -/
def headerMatch (line : Str) : Option (Nat × Str) :=
  match eatLiteralCI "chapter".toList (line.dropWhile pyIsSpace) with
  | none => none
  | some s =>
    match s.dropWhile pyIsSpace with
    | ':' :: s =>
      match eatLiteralCI "chapter".toList (s.dropWhile pyIsSpace) with
      | none => none
      | some s =>
        match s with
        | [] => none
        | c :: s =>
          if pyIsSpace c then
            let s := s.dropWhile pyIsSpace
            let digits := s.takeWhile pyIsDigit
            if digits = [] then none
            else
              match (s.dropWhile pyIsDigit).dropWhile pyIsSpace with
              | [] => none
              | d :: s =>
                if isDashSep d then some (digitsToNat digits, s.dropWhile pyIsSpace)
                else none
          else none
    | _ => none

/-- `_LEGACY_CHAPTER_HEADING_PATTERN.match(line)`, the anchored pattern
`^\s*Chapter\s+(\d+)\s*:\s*(.*)$` (IGNORECASE), returning
`(int(group(1)), group(2))` on success. -/
def legacyMatch (line : Str) : Option (Nat × Str) :=
  match eatLiteralCI "chapter".toList (line.dropWhile pyIsSpace) with
  | none => none
  | some s =>
    match s with
    | [] => none
    | c :: s =>
      if pyIsSpace c then
        let s := s.dropWhile pyIsSpace
        let digits := s.takeWhile pyIsDigit
        if digits = [] then none
        else
          match (s.dropWhile pyIsDigit).dropWhile pyIsSpace with
          | ':' :: s => some (digitsToNat digits, s.dropWhile pyIsSpace)
          | _ => none
      else none

/-- `_TITLE_SPLIT_PATTERN.split(raw, maxsplit=1)` with pattern
`\s*[—–-]\s*`: the leftmost match is the one around the first dash
character (the whitespace runs hugging it), so splitting there and
stripping both parts — which the caller does anyway — is equivalent.
Returns `none` when the string holds no dash. -/
def splitFirstDash : Str → Option (Str × Str)
  | [] => none
  | c :: cs =>
    if isDashSep c then some ([], cs)
    else
      match splitFirstDash cs with
      | none => none
      | some (l, r) => some (c :: l, r)

/-- `_extract_title_summary(raw_content)`: split a chapter line into
title and summary parts at the first dash separator. -/
def extractTitleSummary (raw : Str) : Str × Str :=
  if raw = [] then ([], [])
  else
    match splitFirstDash raw with
    | some (l, r) => (strip l, strip r)
    | none => (strip raw, [])

/-- A parsed chapter entry `{"number": int, "title": str, "summary": str}`. -/
structure ChapterEntry where
  number : Int
  title : Str
  summary : Str
deriving DecidableEq, Repr

/-- Close the structured parser's `current` record into an entry:
its summary is the whitespace-normalised join of the summary lines. -/
def flushStructured (cur : Int × Str × List Str) : ChapterEntry :=
  ⟨cur.1, cur.2.1, normaliseWhitespace (joinSep [' '] cur.2.2)⟩

/-- Line loop of `_parse_structured_chapter_entries`: `cur` is the
`current` record `(number, title, summary_lines)`. -/
def parseStructuredLines : Option (Int × Str × List Str) → List Str → List ChapterEntry
  | none, [] => []
  | some cur, [] => [flushStructured cur]
  | cur, line :: rest =>
    match headerMatch line with
    | some (n, g2) =>
      let newCur : Int × Str × List Str := ((n : Int), normaliseWhitespace g2, [])
      match cur with
      | none => parseStructuredLines (some newCur) rest
      | some c => flushStructured c :: parseStructuredLines (some newCur) rest
    | none =>
      match cur with
      | none => parseStructuredLines none rest
      | some (n, t, ls) =>
        let stripped := strip line
        if stripped = [] then parseStructuredLines (some (n, t, ls)) rest
        else parseStructuredLines (some (n, t, ls ++ [stripped])) rest

/-- `_parse_structured_chapter_entries(text)`.  The Python loop keeps a
`found_header` flag and returns `[]` when it stayed false; the flag is
true exactly when some line matches the header pattern. -/
def parseStructuredChapterEntries (text : Str) : List ChapterEntry :=
  let lines := splitlines text
  if lines.any (fun l => (headerMatch l).isSome) then parseStructuredLines none lines
  else []

/-- Close the legacy parser's `current` record `(number, raw)` into an
entry: normalise the accumulated raw text then split it at the first
dash separator. -/
def flushLegacy (cur : Int × Str) : ChapterEntry :=
  let rawValue := normaliseWhitespace cur.2
  let ts := extractTitleSummary rawValue
  ⟨cur.1, ts.1, ts.2⟩

/-- Line loop of `_parse_legacy_chapter_entries`: `cur` is the
`current` record `(number, raw)`. -/
def parseLegacyLines : Option (Int × Str) → List Str → List ChapterEntry
  | none, [] => []
  | some cur, [] => [flushLegacy cur]
  | cur, line :: rest =>
    match legacyMatch line with
    | some (n, g2) =>
      let newCur : Int × Str := ((n : Int), strip g2)
      match cur with
      | none => parseLegacyLines (some newCur) rest
      | some c => flushLegacy c :: parseLegacyLines (some newCur) rest
    | none =>
      match cur with
      | none => parseLegacyLines none rest
      | some (n, raw) =>
        let stripped := strip line
        if stripped = [] then parseLegacyLines (some (n, raw)) rest
        else
          let rawValue := if raw ≠ [] then raw ++ [' '] ++ stripped else stripped
          parseLegacyLines (some (n, rawValue)) rest

/-- `_parse_legacy_chapter_entries(text)`. -/
def parseLegacyChapterEntries (text : Str) : List ChapterEntry :=
  parseLegacyLines none (splitlines text)

/-- `_parse_chapter_entries(text)`: empty text parses to nothing; the
structured grammar wins when it produced any entry; otherwise fall back
to the legacy grammar. -/
def parseChapterEntries (text : Str) : List ChapterEntry :=
  if text = [] then []
  else
    let structured := parseStructuredChapterEntries text
    if structured = [] then parseLegacyChapterEntries text else structured

/-- `_serialise_chapter_entries(entries)`.  On typed entries the
coercion `int(entry.get("number", 0) or 0)` is the identity, so only
the whitespace normalisation of title and summary remains. -/
def serialiseChapterEntries (entries : List ChapterEntry) : List ChapterEntry :=
  entries.map fun e => ⟨e.number, normaliseWhitespace e.title, normaliseWhitespace e.summary⟩

/-- One section of `_render_chapter_entries`: the header line, then the
summary line when the summary is non-empty.  On typed entries the
`int(number)` coercion never raises, so no entry is skipped. -/
def renderEntry (e : ChapterEntry) : Str :=
  let title := strip e.title
  let summary := strip e.summary
  let headerTitle := if title = [] then "Untitled Chapter".toList else title
  let header := strip ("Chapter: Chapter ".toList ++ intRepr e.number ++ " — ".toList ++ headerTitle)
  let sectionLines := if summary = [] then [header] else [header, summary]
  strip (joinSep ['\n'] sectionLines)

/-- `_render_chapter_entries(entries)`: sections separated by one blank
line, the whole text stripped. -/
def renderChapterEntries (entries : List ChapterEntry) : Str :=
  strip (joinSep ['\n', '\n'] (entries.map renderEntry))

/-- Failure message of the count check. -/
def countMsg (expected : Int) (found : Nat) : Str :=
  "expected ".toList ++ intRepr expected ++ " chapters but found ".toList ++ natRepr found

/-- Failure message of the duplicate-number check. -/
def dupMsg (n : Int) : Str :=
  "chapter number ".toList ++ intRepr n ++ " is duplicated".toList

/-- Failure message of the sequential-number check. -/
def seqMsg (n : Int) (idx : Nat) : Str :=
  "chapter numbers must increase sequentially starting at 1 (found ".toList
    ++ intRepr n ++ " at position ".toList ++ natRepr idx ++ [')']

/-- Failure message of the non-empty title/summary check. -/
def fieldMsg : Str :=
  "each chapter needs a title and a 2-3 sentence summary separated by a dash".toList

/-- Entry loop of `_validate_chapter_outline`: `seen` plays the
`seen_numbers` set, `index` the 1-based `enumerate` counter; the result
is the first failure message, or `none` when every entry passes. -/
def validateLoop (seen : List Int) (index : Nat) : List ChapterEntry → Option Str
  | [] => none
  | e :: rest =>
    if e.number ∈ seen then some (dupMsg e.number)
    else if e.number ≠ (index : Int) then some (seqMsg e.number index)
    else if strip e.title = [] || strip e.summary = [] then some fieldMsg
    else validateLoop (e.number :: seen) (index + 1) rest

/-- Body of `_validate_chapter_outline` after parsing: the count check,
then the entry loop. -/
def validateChapterEntries (entries : List ChapterEntry) (expected : Int) :
    Bool × List ChapterEntry × Str :=
  if (entries.length : Int) ≠ expected then (false, entries, countMsg expected entries.length)
  else
    match validateLoop [] 1 entries with
    | some msg => (false, entries, msg)
    | none => (true, entries, [])

/-- `_validate_chapter_outline(response, expected_count)`. -/
def validateChapterOutline (response : Str) (expected : Int) :
    Bool × List ChapterEntry × Str :=
  validateChapterEntries (parseChapterEntries response) expected

/-!  The retry engine `_generate_single_act_chapters` and the per-project
orchestrator `_generate_chapter_outlines`.  A prompt built by
`_build_chapter_prompt` is modelled as the tuple of the builder's
arguments: the claims under verification depend only on which arguments
each invocation of the generation function receives, never on the
rendered prompt text.  Wall-clock durations inside log/debug messages
are not statable; a debug message is modelled by its statable fields. -/

/-- Equality of `Except` values is decidable componentwise. -/
instance {ε α : Type} [DecidableEq ε] [DecidableEq α] : DecidableEq (Except ε α)
  | Except.error e, Except.error f =>
    if h : e = f then isTrue (congrArg Except.error h)
    else isFalse (fun hc => h (Except.error.inj hc))
  | Except.error _, Except.ok _ => isFalse (fun hc => Except.noConfusion hc)
  | Except.ok _, Except.error _ => isFalse (fun hc => Except.noConfusion hc)
  | Except.ok a, Except.ok b =>
    if h : a = b then isTrue (congrArg Except.ok h)
    else isFalse (fun hc => h (Except.ok.inj hc))

/-- The arguments of one `_build_chapter_prompt` call. -/
structure PromptData where
  actNumber : Nat
  outlineText : Str
  actOutlines : List (Nat × Str)
  characterContext : Str
  finalNotes : Str
  previousChapters : List (Nat × Str)
  chaptersPerAct : Int
  feedback : Option Str
  previousResponse : Option Str
deriving DecidableEq, Repr

/-- The per-act static arguments of the engine (everything of
`PromptData` except the retry feedback). -/
structure ActContext where
  actNumber : Nat
  outlineText : Str
  actOutlines : List (Nat × Str)
  characterContext : Str
  finalNotes : Str
  previousChapters : List (Nat × Str)
  chaptersPerAct : Int
deriving DecidableEq, Repr

/-- `_build_chapter_prompt(...)` as the record of its arguments. -/
def buildChapterPrompt (ctx : ActContext) (feedback previousResponse : Option Str) :
    PromptData :=
  ⟨ctx.actNumber, ctx.outlineText, ctx.actOutlines, ctx.characterContext,
    ctx.finalNotes, ctx.previousChapters, ctx.chaptersPerAct, feedback, previousResponse⟩

/-- The corrective feedback string passed on a retry. -/
def feedbackText (errorDetail : Str) : Str :=
  "The format validator rejected the last draft: ".toList ++ errorDetail
    ++ ". Produce a fresh list that follows every instruction.".toList

/-- `error_message or "unknown validation error"`. -/
def errDetailOf (msg : Str) : Str :=
  if msg = [] then "unknown validation error".toList else msg

/-- One debug-trail line, by its statable fields (durations elided). -/
inductive DebugMsg where
  | succeeded (actNumber attempt chapterCount charCount : Nat)
  | failed (actNumber attempt : Nat) (errorDetail : Str) (chapterCount charCount : Nat)
  | exhausted (actNumber maxAttempts : Nat)
  | summaryAllValid
  | summarySomeInvalid
deriving DecidableEq, Repr

/-- Return value of the retry engine `(formatted_text, entries,
debug_messages, succeeded)`. -/
structure EngineResult where
  formattedText : Str
  entries : List ChapterEntry
  debugMessages : List DebugMsg
  succeeded : Bool
deriving DecidableEq, Repr

/-- The `while attempt < max_attempts` loop of
`_generate_single_act_chapters`, structural on the remaining attempts
`fuel`.  The generation backend is a function from the prompt to either
an exception `ε` or an optional response (`None` becomes `""` through
the `or ""` in the source); every call made is recorded in `trace`.
An uncaught backend exception aborts the loop and is returned as
`Except.error` unchanged. -/
def runAttempts {ε : Type} (gen : PromptData → Except ε (Option Str)) (ctx : ActContext)
    (maxAttempts : Nat) :
    Nat → Nat → PromptData → Str → List ChapterEntry → List DebugMsg → List PromptData →
    List PromptData × Except ε EngineResult
  | 0, _, _, lastResponse, lastEntries, debug, trace =>
    let formatted := if lastEntries ≠ [] then renderChapterEntries lastEntries else lastResponse
    (trace, .ok ⟨formatted, lastEntries,
      debug ++ [.exhausted ctx.actNumber maxAttempts], false⟩)
  | fuel + 1, attempt, prompt, _, _, debug, trace =>
    let attemptNow := attempt + 1
    let trace := trace ++ [prompt]
    match gen prompt with
    | .error e => (trace, .error e)
    | .ok r =>
      let responseClean := strip (r.getD [])
      let v := validateChapterOutline responseClean ctx.chaptersPerAct
      let entries := v.2.1
      if v.1 then
        (trace, .ok ⟨renderChapterEntries entries, entries,
          debug ++ [.succeeded ctx.actNumber attemptNow entries.length responseClean.length],
          true⟩)
      else
        let errDetail := errDetailOf v.2.2
        let newPrompt :=
          buildChapterPrompt ctx (some (feedbackText errDetail)) (some responseClean)
        runAttempts gen ctx maxAttempts fuel attemptNow newPrompt responseClean entries
          (debug ++ [.failed ctx.actNumber attemptNow errDetail entries.length
            responseClean.length])
          trace

/-- `_generate_single_act_chapters(...)`: run the retry loop from a
fresh prompt, returning the list of prompts actually sent to the
generation function alongside the (possibly exceptional) result. -/
def generateSingleActChapters {ε : Type} (gen : PromptData → Except ε (Option Str))
    (ctx : ActContext) (maxAttempts : Nat) :
    List PromptData × Except ε EngineResult :=
  runAttempts gen ctx maxAttempts maxAttempts 0 (buildChapterPrompt ctx none none) [] [] [] []

/-- Exceptions escaping `_generate_chapter_outlines`: its own
`ValueError`, or a backend exception propagated from the engine. -/
inductive PyError (ε : Type) where
  | valueError (msg : Str)
  | backend (e : ε)
deriving DecidableEq

/-- Python `x or default` for an optional string field (`None` and `""`
both fall back). -/
def orDefault (o : Option Str) (d : Str) : Str :=
  match o with
  | none => d
  | some s => if s = [] then d else s

/-- The project fields `_generate_chapter_outlines` reads.  The roster
string `_build_character_roster(project)` is carried as a field since
the claims never inspect it. -/
structure ProjectOutlines where
  outline : Option Str
  act1Outline : Option Str
  act2Outline : Option Str
  act3Outline : Option Str
  characterRoster : Str
deriving Repr

/-- Return value of the orchestrator `(results, structured_results,
debug_entries, all_valid)`. -/
structure OutlineRunResult where
  results : List Str
  structuredResults : List (List ChapterEntry)
  debugEntries : List DebugMsg
  allValid : Bool
deriving DecidableEq, Repr

/-- `_generate_chapter_outlines(generator, project, final_notes,
chapters_per_act)`: reject a non-positive `chapters_per_act` before any
generation, then run the engine for acts 1, 2, 3 in order, threading
each act's stripped rendered text into the next act's
`previous_chapters`.  The engine is always called with its default
`max_attempts = 3`.  The first components collects every prompt sent. -/
def generateChapterOutlines {ε : Type} (gen : PromptData → Except ε (Option Str))
    (project : ProjectOutlines) (finalNotes : Str) (chaptersPerAct : Int) :
    List PromptData × Except (PyError ε) OutlineRunResult :=
  if chaptersPerAct ≤ 0 then
    ([], .error (.valueError "chapters_per_act must be a positive integer".toList))
  else
    let outlineText := strip (orDefault project.outline "No outline has been provided yet.".toList)
    let characterContext := project.characterRoster
    let notesText :=
      if strip finalNotes = [] then "No additional notes provided.".toList else strip finalNotes
    let actOutlines : List (Nat × Str) :=
      [(1, strip (orDefault project.act1Outline "No outline generated yet.".toList)),
       (2, strip (orDefault project.act2Outline "No outline generated yet.".toList)),
       (3, strip (orDefault project.act3Outline "No outline generated yet.".toList))]
    let ctx1 : ActContext :=
      ⟨1, outlineText, actOutlines, characterContext, notesText, [], chaptersPerAct⟩
    let run1 := generateSingleActChapters gen ctx1 3
    match run1.2 with
    | .error e => (run1.1, .error (.backend e))
    | .ok res1 =>
      let prev1 : List (Nat × Str) := [(1, strip res1.formattedText)]
      let ctx2 : ActContext :=
        ⟨2, outlineText, actOutlines, characterContext, notesText, prev1, chaptersPerAct⟩
      let run2 := generateSingleActChapters gen ctx2 3
      match run2.2 with
      | .error e => (run1.1 ++ run2.1, .error (.backend e))
      | .ok res2 =>
        let prev2 : List (Nat × Str) := prev1 ++ [(2, strip res2.formattedText)]
        let ctx3 : ActContext :=
          ⟨3, outlineText, actOutlines, characterContext, notesText, prev2, chaptersPerAct⟩
        let run3 := generateSingleActChapters gen ctx3 3
        match run3.2 with
        | .error e => (run1.1 ++ run2.1 ++ run3.1, .error (.backend e))
        | .ok res3 =>
          let allValid := res1.succeeded && res2.succeeded && res3.succeeded
          let summary := if allValid then DebugMsg.summaryAllValid else DebugMsg.summarySomeInvalid
          (run1.1 ++ run2.1 ++ run3.1, .ok
            ⟨[strip res1.formattedText, strip res2.formattedText, strip res3.formattedText],
             [serialiseChapterEntries res1.entries, serialiseChapterEntries res2.entries,
              serialiseChapterEntries res3.entries],
             res1.debugMessages ++ res2.debugMessages ++ res3.debugMessages ++ [summary],
             allValid⟩)

/-!  Chapter reconciliation helpers.  The draft lookup
`chapter_draft_lookup` maps the key `f"{act}-{number}"` to a draft
record; it is modelled as a function from the `(act, number)` pair to
the optional content string (an absent `"content"` field and an absent
record both behave as `""` through `(draft_entry or {}).get("content",
"")`).  Entries are typed, so the `int(...)` coercions of the source
never raise and no entry is skipped.  Both iteration orders of the
source (`items()` insertion order and `sorted(...)`) agree on the
three-act dictionary `{1: ..., 2: ..., 3: ...}` the callers build, and
are modelled by the association list given in ascending act order. -/

/-- Is the draft content at `(act, number)` blank
(`not str(content).strip()`)? -/
def draftBlank (lookup : Nat → Int → Option Str) (act : Nat) (number : Int) : Bool :=
  strip ((lookup act number).getD []) = []

/-- `_find_last_unfilled_chapter`: the last planned chapter, in act
order then entry order, whose draft content is blank. -/
def findLastUnfilledChapter (acts : List (Nat × List ChapterEntry))
    (lookup : Nat → Int → Option Str) : Option (Nat × Int) :=
  acts.foldl
    (fun lastMissing p =>
      p.2.foldl
        (fun lm e => if draftBlank lookup p.1 e.number then some (p.1, e.number) else lm)
        lastMissing)
    none

/-- `_find_last_drafted_chapter`: the last planned chapter, in act
order then entry order, whose draft content is non-blank. -/
def findLastDraftedChapter (acts : List (Nat × List ChapterEntry))
    (lookup : Nat → Int → Option Str) : Option (Nat × Int) :=
  acts.foldl
    (fun lastDrafted p =>
      p.2.foldl
        (fun ld e => if draftBlank lookup p.1 e.number then ld else some (p.1, e.number))
        lastDrafted)
    none

/-- Inner scan of `_suggest_next_chapter_after_last_draft`: after the
matching entry was found, return the first following entry with blank
draft content. -/
def firstBlankAfter (lookup : Nat → Int → Option Str) (act : Nat) :
    List ChapterEntry → Option (Nat × Int)
  | [] => none
  | e :: rest =>
    if draftBlank lookup act e.number then some (act, e.number)
    else firstBlankAfter lookup act rest

/-- Outer scan of `_suggest_next_chapter_after_last_draft`: find the
first entry carrying the last-drafted chapter number, then scan its
tail (the loop `break`s after that first match). -/
def suggestScan (lookup : Nat → Int → Option Str) (act : Nat) (ch : Int) :
    List ChapterEntry → Option (Nat × Int)
  | [] => none
  | e :: rest =>
    if e.number = ch then firstBlankAfter lookup act rest
    else suggestScan lookup act ch rest

/-- `_suggest_next_chapter_after_last_draft`. -/
def suggestNextChapterAfterLastDraft (acts : List (Nat × List ChapterEntry))
    (lookup : Nat → Int → Option Str) : Option (Nat × Int) :=
  match findLastDraftedChapter acts lookup with
  | none => none
  | some (act, ch) =>
    let entries := ((acts.find? (fun p => p.1 = act)).map Prod.snd).getD []
    suggestScan lookup act ch entries

/-!  Specification-side predicates about entry lists, used to state the
claims about the validator. -/

/-- Every entry has a non-empty title and summary after trimming. -/
def fieldsNonempty (entries : List ChapterEntry) : Prop :=
  ∀ e ∈ entries, strip e.title ≠ [] ∧ strip e.summary ≠ []

instance : DecidablePred fieldsNonempty := fun entries =>
  inferInstanceAs (Decidable (∀ e ∈ entries, strip e.title ≠ [] ∧ strip e.summary ≠ []))

/-- The `number` fields are exactly `1, 2, ..., len` in list order. -/
def numbersSequential (entries : List ChapterEntry) : Prop :=
  entries.map ChapterEntry.number = (List.range' 1 entries.length).map Int.ofNat

instance : DecidablePred numbersSequential := fun entries =>
  inferInstanceAs (Decidable (_ = _))

/-- Positional form of `numbersSequential`, generalised to an arbitrary
starting index. -/
lemma numbers_range'_iff_enumFrom (entries : List ChapterEntry) :
    ∀ k : Nat, (entries.map ChapterEntry.number
        = (List.range' k entries.length).map Int.ofNat
      ↔ ∀ p ∈ entries.enumFrom k, p.2.number = (p.1 : Int)) := by
  induction entries with
  | nil => simp
  | cons e rest ih =>
    intro k
    simp only [List.map_cons, List.length_cons, List.range'_succ, List.enumFrom_cons,
      List.mem_cons]
    constructor
    · rintro h p hp
      rcases List.cons_eq_cons.mp h with ⟨h1, h2⟩
      rcases hp with rfl | hp
      · exact h1
      · exact ((ih (k + 1)).mp h2) p hp
    · intro h
      refine List.cons_eq_cons.mpr ⟨h _ (Or.inl rfl), (ih (k + 1)).mpr ?_⟩
      intro p hp
      exact h p (Or.inr hp)

/-- Unfolding of one validator-loop step. -/
lemma validateLoop_cons (seen : List Int) (k : Nat) (e : ChapterEntry)
    (rest : List ChapterEntry) :
    validateLoop seen k (e :: rest) =
      if e.number ∈ seen then some (dupMsg e.number)
      else if e.number ≠ (k : Int) then some (seqMsg e.number k)
      else if strip e.title = [] || strip e.summary = [] then some fieldMsg
      else validateLoop (e.number :: seen) (k + 1) rest := rfl

/-- The validator loop succeeds exactly when the numbers follow the
index sequence and every title and summary is non-empty, provided the
`seen` set only holds values below the current index. -/
lemma validateLoop_eq_none_iff (entries : List ChapterEntry) :
    ∀ (seen : List Int) (k : Nat), (∀ x ∈ seen, x < (k : Int)) →
      (validateLoop seen k entries = none ↔
        ((∀ p ∈ entries.enumFrom k, p.2.number = (p.1 : Int)) ∧ fieldsNonempty entries)) := by
  induction entries with
  | nil => intro seen k _; simp [validateLoop, fieldsNonempty]
  | cons e rest ih =>
    intro seen k hseen
    constructor
    · intro h
      by_cases hmem : e.number ∈ seen
      · rw [validateLoop_cons, if_pos hmem] at h; cases h
      by_cases hnum : e.number = (k : Int)
      case neg =>
        rw [validateLoop_cons, if_neg hmem, if_pos hnum] at h; cases h
      by_cases hfld : (strip e.title = [] || strip e.summary = []) = true
      · rw [validateLoop_cons, if_neg hmem, if_neg (not_not_intro hnum), if_pos hfld] at h
        cases h
      · rw [validateLoop_cons, if_neg hmem, if_neg (not_not_intro hnum), if_neg hfld] at h
        have hstep : ∀ x ∈ (e.number :: seen), x < ((k + 1 : Nat) : Int) := by
          intro x hx
          rcases List.mem_cons.mp hx with rfl | hx
          · rw [hnum]; exact_mod_cast Nat.lt_succ_self k
          · exact lt_trans (hseen x hx) (by exact_mod_cast Nat.lt_succ_self k)
        have hrest := (ih (e.number :: seen) (k + 1) hstep).mp h
        simp only [Bool.or_eq_true, not_or, decide_eq_true_eq] at hfld
        refine ⟨fun p hp => ?_, fun x hx => ?_⟩
        · rw [List.enumFrom_cons] at hp
          rcases List.mem_cons.mp hp with rfl | hp
          · exact hnum
          · exact hrest.1 p hp
        · rcases List.mem_cons.mp hx with rfl | hx
          · exact hfld
          · exact hrest.2 x hx
    · rintro ⟨hseq, hfields⟩
      have hnum : e.number = (k : Int) := by
        have := hseq (k, e) (by rw [List.enumFrom_cons]; exact List.mem_cons_self _ _)
        exact this
      have hmem : e.number ∉ seen := by
        intro hx
        have := hseen _ hx
        rw [hnum] at this
        exact lt_irrefl _ this
      have hf := hfields e (List.mem_cons_self _ _)
      have hfld : ¬((strip e.title = [] || strip e.summary = []) = true) := by
        simp [hf.1, hf.2]
      rw [validateLoop_cons, if_neg hmem, if_neg (not_not_intro hnum), if_neg hfld]
      have hstep : ∀ x ∈ (e.number :: seen), x < ((k + 1 : Nat) : Int) := by
        intro x hx
        rcases List.mem_cons.mp hx with rfl | hx
        · rw [hnum]; exact_mod_cast Nat.lt_succ_self k
        · exact lt_trans (hseen x hx) (by exact_mod_cast Nat.lt_succ_self k)
      refine (ih (e.number :: seen) (k + 1) hstep).mpr
        ⟨fun p hp => hseq p ?_, fun x hx => hfields x (List.mem_cons_of_mem _ hx)⟩
      rw [List.enumFrom_cons]
      exact List.mem_cons_of_mem _ hp

/-- Running the validator loop across a clean prefix: when every
prefix entry carries its index and non-empty fields, the loop reaches
the remainder with the prefix's numbers pushed onto `seen`. -/
lemma validateLoop_append (pre : List ChapterEntry) :
    ∀ (rest : List ChapterEntry) (seen : List Int) (k : Nat),
      (∀ x ∈ seen, x < (k : Int)) →
      (∀ p ∈ pre.enumFrom k, p.2.number = (p.1 : Int)) →
      (∀ e ∈ pre, strip e.title ≠ [] ∧ strip e.summary ≠ []) →
      validateLoop seen k (pre ++ rest) =
        validateLoop (((List.range' k pre.length).map Int.ofNat).reverse ++ seen)
          (k + pre.length) rest := by
  induction pre with
  | nil => intro rest seen k _ _ _; simp
  | cons e pre' ih =>
    intro rest seen k hseen hseq hfields
    have hnum : e.number = (k : Int) :=
      hseq (k, e) (by rw [List.enumFrom_cons]; exact List.mem_cons_self _ _)
    have hmem : e.number ∉ seen := by
      intro hx
      have := hseen _ hx
      rw [hnum] at this
      exact lt_irrefl _ this
    have hf := hfields e (List.mem_cons_self _ _)
    have hfld : ¬((strip e.title = [] || strip e.summary = []) = true) := by
      simp [hf.1, hf.2]
    have hstep : ∀ x ∈ (e.number :: seen), x < ((k + 1 : Nat) : Int) := by
      intro x hx
      rcases List.mem_cons.mp hx with rfl | hx
      · rw [hnum]; exact_mod_cast Nat.lt_succ_self k
      · exact lt_trans (hseen x hx) (by exact_mod_cast Nat.lt_succ_self k)
    rw [List.cons_append, validateLoop_cons, if_neg hmem, if_neg (not_not_intro hnum),
      if_neg hfld]
    rw [ih rest (e.number :: seen) (k + 1) hstep
      (fun p hp => hseq p (by rw [List.enumFrom_cons]; exact List.mem_cons_of_mem _ hp))
      (fun x hx => hfields x (List.mem_cons_of_mem _ hx))]
    congr 1
    · rw [List.length_cons, List.range'_succ, List.map_cons, List.reverse_cons,
        List.append_assoc, hnum]
      rfl
    · rw [List.length_cons]; omega

/-- With globally distinct numbers and non-empty fields, a sequence
violation yields the sequence message of its first offending entry. -/
lemma validateLoop_seq_fail (entries : List ChapterEntry) :
    ∀ (seen : List Int) (k : Nat),
      (∀ e ∈ entries, e.number ∉ seen) →
      (entries.map ChapterEntry.number).Nodup →
      (∀ e ∈ entries, strip e.title ≠ [] ∧ strip e.summary ≠ []) →
      ¬(∀ p ∈ entries.enumFrom k, p.2.number = (p.1 : Int)) →
      ∃ n i, validateLoop seen k entries = some (seqMsg n i) := by
  induction entries with
  | nil => intro seen k _ _ _ hfail; exact absurd (by simp) hfail
  | cons e rest ih =>
    intro seen k hseen hnd hfields hfail
    have hmem : e.number ∉ seen := hseen e (List.mem_cons_self _ _)
    by_cases hnum : e.number = (k : Int)
    · have hf := hfields e (List.mem_cons_self _ _)
      have hfld : ¬((strip e.title = [] || strip e.summary = []) = true) := by
        simp [hf.1, hf.2]
      rw [validateLoop_cons, if_neg hmem, if_neg (not_not_intro hnum), if_neg hfld]
      rw [List.map_cons, List.nodup_cons] at hnd
      refine ih (e.number :: seen) (k + 1) ?_ hnd.2
        (fun x hx => hfields x (List.mem_cons_of_mem _ hx)) ?_
      · intro x hx
        intro hcon
        rcases List.mem_cons.mp hcon with hx' | hx'
        · exact hnd.1 (hx' ▸ List.mem_map_of_mem ChapterEntry.number hx)
        · exact hseen x (List.mem_cons_of_mem _ hx) hx'
      · intro hall
        refine hfail ?_
        intro p hp
        rw [List.enumFrom_cons] at hp
        rcases List.mem_cons.mp hp with rfl | hp
        · exact hnum
        · exact hall p hp
    · exact ⟨e.number, k, by rw [validateLoop_cons, if_neg hmem, if_pos hnum]⟩

/-- With all numbers on their index, an empty title or summary
somewhere yields the generic field message. -/
lemma validateLoop_fields_fail (entries : List ChapterEntry) :
    ∀ (seen : List Int) (k : Nat),
      (∀ x ∈ seen, x < (k : Int)) →
      (∀ p ∈ entries.enumFrom k, p.2.number = (p.1 : Int)) →
      (∃ e ∈ entries, strip e.title = [] ∨ strip e.summary = []) →
      validateLoop seen k entries = some fieldMsg := by
  induction entries with
  | nil => intro seen k _ _ hbad; simp at hbad
  | cons e rest ih =>
    intro seen k hseen hseq hbad
    have hnum : e.number = (k : Int) :=
      hseq (k, e) (by rw [List.enumFrom_cons]; exact List.mem_cons_self _ _)
    have hmem : e.number ∉ seen := by
      intro hx
      have := hseen _ hx
      rw [hnum] at this
      exact lt_irrefl _ this
    by_cases hfld : (strip e.title = [] || strip e.summary = []) = true
    · rw [validateLoop_cons, if_neg hmem, if_neg (not_not_intro hnum), if_pos hfld]
    · rw [validateLoop_cons, if_neg hmem, if_neg (not_not_intro hnum), if_neg hfld]
      have hstep : ∀ x ∈ (e.number :: seen), x < ((k + 1 : Nat) : Int) := by
        intro x hx
        rcases List.mem_cons.mp hx with rfl | hx
        · rw [hnum]; exact_mod_cast Nat.lt_succ_self k
        · exact lt_trans (hseen x hx) (by exact_mod_cast Nat.lt_succ_self k)
      refine ih (e.number :: seen) (k + 1) hstep
        (fun p hp => hseq p (by rw [List.enumFrom_cons]; exact List.mem_cons_of_mem _ hp)) ?_
      rcases hbad with ⟨x, hx, hxbad⟩
      rcases List.mem_cons.mp hx with rfl | hx
      · exfalso
        rcases hxbad with h | h <;> simp [h] at hfld
      · exact ⟨x, hx, hxbad⟩

/-- Sequential numbers are pairwise distinct. -/
lemma nodup_of_numbersSequential (entries : List ChapterEntry)
    (h : numbersSequential entries) : (entries.map ChapterEntry.number).Nodup := by
  rw [numbersSequential] at h
  rw [h]
  exact (List.nodup_range' _ _).map (fun a b h => Int.ofNat.inj h)

/-- C1: `_validate_chapter_outline`'s post-parse validation accepts an
entry list iff it has the expected length, numbers exactly
`1..expected_count` in order without duplicates, and non-empty trimmed
titles and summaries; on success it returns `(true, entries, "")`, and
when a single condition is violated the message is that condition's
message: the count message on a count mismatch, a duplicate message
when only distinctness fails (vacuous, since the exact sequence forces
distinctness), the sequence message of the first offending position
when only the order fails, and the missing-field message when only a
title or summary is blank. -/
theorem C1_validator_characterisation (entries : List ChapterEntry) (N : Int) :
    (((validateChapterEntries entries N).1 = true) ↔
      ((entries.length : Int) = N ∧ numbersSequential entries ∧
        (entries.map ChapterEntry.number).Nodup ∧ fieldsNonempty entries)) ∧
    ((validateChapterEntries entries N).1 = true →
      validateChapterEntries entries N = (true, entries, [])) ∧
    ((entries.length : Int) ≠ N →
      validateChapterEntries entries N = (false, entries, countMsg N entries.length)) ∧
    (((entries.length : Int) = N ∧ numbersSequential entries ∧ fieldsNonempty entries ∧
        ¬(entries.map ChapterEntry.number).Nodup) →
      ∃ d, (validateChapterEntries entries N).2.2 = dupMsg d) ∧
    (((entries.length : Int) = N ∧ (entries.map ChapterEntry.number).Nodup ∧
        fieldsNonempty entries ∧ ¬numbersSequential entries) →
      ∃ n i, (validateChapterEntries entries N).2.2 = seqMsg n i) ∧
    (((entries.length : Int) = N ∧ numbersSequential entries ∧ ¬fieldsNonempty entries) →
      (validateChapterEntries entries N).2.2 = fieldMsg) := by
  have hiff := validateLoop_eq_none_iff entries [] 1 (by intro x hx; cases hx)
  have hseq_iff := numbers_range'_iff_enumFrom entries 1
  by_cases hcount : (entries.length : Int) = N
  · have hcount' : ¬((entries.length : Int) ≠ N) := not_not_intro hcount
    refine ⟨?_, ?_, fun h => absurd hcount h.elim, ?_, ?_, ?_⟩
    · cases hl : validateLoop [] 1 entries with
      | none =>
        have hr := hiff.mp hl
        simp only [validateChapterEntries, if_neg hcount', hl]
        constructor
        · intro _
          have hseq : numbersSequential entries := by
            rw [numbersSequential]; exact hseq_iff.mpr hr.1
          exact ⟨hcount, hseq, nodup_of_numbersSequential entries hseq, hr.2⟩
        · intro _; trivial
      | some msg =>
        simp only [validateChapterEntries, if_neg hcount', hl]
        constructor
        · intro h; cases h
        · rintro ⟨_, hseq, _, hfields⟩
          rw [numbersSequential] at hseq
          have := hiff.mpr ⟨hseq_iff.mp hseq, hfields⟩
          rw [this] at hl
          cases hl
    · intro h
      cases hl : validateLoop [] 1 entries with
      | none => simp only [validateChapterEntries, if_neg hcount', hl]
      | some msg =>
        simp only [validateChapterEntries, if_neg hcount', hl] at h
        cases h
    · rintro ⟨_, hseq, _, hnd⟩
      exact absurd (nodup_of_numbersSequential entries hseq) hnd
    · rintro ⟨_, hnd, hfields, hseq⟩
      rw [numbersSequential] at hseq
      obtain ⟨n, i, hl⟩ := validateLoop_seq_fail entries [] 1
        (by intro x _ hx; cases hx) hnd hfields (fun hall => hseq (hseq_iff.mpr hall))
      refine ⟨n, i, ?_⟩
      simp only [validateChapterEntries, if_neg hcount', hl]
    · rintro ⟨_, hseq, hfields⟩
      rw [numbersSequential] at hseq
      have hbad : ∃ e ∈ entries, strip e.title = [] ∨ strip e.summary = [] := by
        rw [fieldsNonempty] at hfields
        push_neg at hfields
        obtain ⟨e, he, hb⟩ := hfields
        refine ⟨e, he, ?_⟩
        by_cases h1 : strip e.title = []
        · exact Or.inl h1
        · exact Or.inr (hb h1)
      have hl := validateLoop_fields_fail entries [] 1 (by intro x hx; cases hx)
        (hseq_iff.mp hseq) hbad
      simp only [validateChapterEntries, if_neg hcount', hl]
  · refine ⟨?_, ?_, fun _ => by simp only [validateChapterEntries, if_pos hcount], ?_, ?_, ?_⟩
    · simp only [validateChapterEntries, if_pos hcount]
      constructor
      · intro h; cases h
      · rintro ⟨h, _⟩; exact absurd h hcount
    · intro h
      simp only [validateChapterEntries, if_pos hcount] at h
      cases h
    · rintro ⟨h, _⟩; exact absurd h hcount
    · rintro ⟨h, _⟩; exact absurd h hcount
    · rintro ⟨h, _⟩; exact absurd h hcount

/-- Witness for C1 at concrete inputs: a well-formed singleton list is
accepted with an empty message, and an empty list against expected
count 1 is rejected with the count message. -/
theorem C1_validator_witness :
    validateChapterEntries [⟨1, "a".toList, "s".toList⟩] 1
        = (true, [⟨1, "a".toList, "s".toList⟩], [])
      ∧ (validateChapterEntries [] 1).2.2 = countMsg 1 0 := by
  constructor
  · exact (C1_validator_characterisation [⟨1, "a".toList, "s".toList⟩] 1).2.1
      ((C1_validator_characterisation [⟨1, "a".toList, "s".toList⟩] 1).1.mpr
        ⟨by decide, by decide, by decide, by decide⟩)
  · have h := (C1_validator_characterisation ([] : List ChapterEntry) 1).2.2.1 (by decide)
    rw [h]
    rfl

/-- C6 counterexample: with `[{number 1, empty title}, {number 1}]` and
expected count 2, both the duplicate check (check 2) and the field
check (check 4) are violated, yet the validator reports the field
message of the earlier entry, not the duplicate message the claim's
fixed check order would demand. -/
theorem C6_counterexample :
    validateChapterEntries
        [⟨1, [], "s".toList⟩, ⟨1, "t".toList, "s".toList⟩] 2
      = (false, [⟨1, [], "s".toList⟩, ⟨1, "t".toList, "s".toList⟩], fieldMsg)
    ∧ ¬(([⟨1, [], "s".toList⟩, ⟨1, "t".toList, "s".toList⟩] :
        List ChapterEntry).map ChapterEntry.number).Nodup
    ∧ fieldMsg ≠ dupMsg 1 := by decide

/-- C6 amended: the count check runs first; checks 2–4 are then applied
entry by entry in list order, with per-entry priority duplicate, then
sequence, then missing fields.  Concretely: when every entry of a
prefix passes checks 2–4 and the next entry violates one of them, the
reported message is that entry's first failing check's message. -/
theorem C6_first_failure_order (pre post : List ChapterEntry) (e : ChapterEntry) (N : Int)
    (hN : (((pre ++ e :: post).length : Nat) : Int) = N)
    (hpreSeq : pre.map ChapterEntry.number = (List.range' 1 pre.length).map Int.ofNat)
    (hpreFields : ∀ x ∈ pre, strip x.title ≠ [] ∧ strip x.summary ≠ [])
    (hfail : e.number ∈ pre.map ChapterEntry.number
      ∨ e.number ≠ ((pre.length + 1 : Nat) : Int)
      ∨ strip e.title = [] ∨ strip e.summary = []) :
    validateChapterEntries (pre ++ e :: post) N =
      (false, pre ++ e :: post,
        if e.number ∈ pre.map ChapterEntry.number then dupMsg e.number
        else if e.number ≠ ((pre.length + 1 : Nat) : Int) then
          seqMsg e.number (pre.length + 1)
        else fieldMsg) := by
  have happ := validateLoop_append pre (e :: post) [] 1 (by intro x hx; cases hx)
    ((numbers_range'_iff_enumFrom pre 1).mp hpreSeq) hpreFields
  have hmem_iff : e.number ∈ (((List.range' 1 pre.length).map Int.ofNat).reverse
      ++ ([] : List Int)) ↔ e.number ∈ pre.map ChapterEntry.number := by
    rw [List.append_nil, List.mem_reverse, hpreSeq]
  have hk : 1 + pre.length = pre.length + 1 := Nat.add_comm _ _
  by_cases hd : e.number ∈ pre.map ChapterEntry.number
  · have hloop : validateLoop [] 1 (pre ++ e :: post) = some (dupMsg e.number) := by
      rw [happ, validateLoop_cons, if_pos (hmem_iff.mpr hd)]
    simp only [validateChapterEntries, if_neg (not_not_intro hN), hloop, if_pos hd]
  · by_cases hs : e.number = ((pre.length + 1 : Nat) : Int)
    · have hf : strip e.title = [] ∨ strip e.summary = [] := by
        rcases hfail with h | h | h | h
        · exact absurd h hd
        · exact absurd hs h
        · exact Or.inl h
        · exact Or.inr h
      have hfld : (strip e.title = [] || strip e.summary = []) = true := by
        rcases hf with h | h <;> simp [h]
      have hloop : validateLoop [] 1 (pre ++ e :: post) = some fieldMsg := by
        rw [happ, validateLoop_cons, if_neg (hmem_iff.not.mpr hd),
          if_neg (not_not_intro (by rw [hk]; exact hs)), if_pos hfld]
      simp only [validateChapterEntries, if_neg (not_not_intro hN), hloop, if_neg hd,
        if_neg (not_not_intro hs)]
    · have hloop : validateLoop [] 1 (pre ++ e :: post)
          = some (seqMsg e.number (pre.length + 1)) := by
        rw [happ, validateLoop_cons, if_neg (hmem_iff.not.mpr hd),
          if_pos (by rw [hk]; exact hs), hk]
      simp only [validateChapterEntries, if_neg (not_not_intro hN), hloop, if_neg hd,
        if_pos hs]

/-- Witness for C6's amended order at a concrete input: the first entry
has an empty title, the second duplicates number 1; the field message
of the first entry is reported. -/
theorem C6_first_failure_order_witness :
    validateChapterEntries
        [⟨1, [], "s".toList⟩, ⟨1, "t".toList, "s".toList⟩] 2
      = (false, [⟨1, [], "s".toList⟩, ⟨1, "t".toList, "s".toList⟩], fieldMsg) := by
  have h := C6_first_failure_order [] [⟨1, "t".toList, "s".toList⟩] ⟨1, [], "s".toList⟩ 2
    (by decide) (by decide) (by intro x hx; cases hx)
    (Or.inr (Or.inr (Or.inl rfl)))
  simpa using h

/-- Once the structured parser holds a current record it emits at least
one entry. -/
lemma parseStructuredLines_some_ne_nil (lines : List Str) :
    ∀ cur, parseStructuredLines (some cur) lines ≠ [] := by
  induction lines with
  | nil => intro cur; simp [parseStructuredLines]
  | cons line rest ih =>
    intro cur
    rw [parseStructuredLines]
    cases h : headerMatch line with
    | some p => simp
    | none =>
      obtain ⟨n, t, ls⟩ := cur
      by_cases hs : strip line = []
      · simpa [hs] using ih (n, t, ls)
      · simpa [hs] using ih (n, t, ls ++ [strip line])

/-- The structured parser emits an entry as soon as some line matches
the header pattern. -/
lemma parseStructuredLines_ne_nil_of_header (lines : List Str)
    (h : ∃ l ∈ lines, (headerMatch l).isSome) :
    parseStructuredLines none lines ≠ [] := by
  induction lines with
  | nil => simp at h
  | cons line rest ih =>
    rw [parseStructuredLines]
    cases hm : headerMatch line with
    | some p => exact parseStructuredLines_some_ne_nil rest _
    | none =>
      rcases h with ⟨l, hl, hsome⟩
      rcases List.mem_cons.mp hl with rfl | hl
      · rw [hm] at hsome; cases hsome
      · exact ih ⟨l, hl, hsome⟩

/-- Without any legacy header line the legacy parser with no current
record emits nothing. -/
lemma parseLegacyLines_nil_of_no_match (lines : List Str)
    (h : ∀ l ∈ lines, legacyMatch l = none) :
    parseLegacyLines none lines = [] := by
  induction lines with
  | nil => rfl
  | cons line rest ih =>
    rw [parseLegacyLines, h line (List.mem_cons_self _ _)]
    exact ih fun l hl => h l (List.mem_cons_of_mem _ hl)

/-- C5: grammar precedence of `_parse_chapter_entries`: any line
matching the structured header pattern makes the structured grammar's
result authoritative (even when legacy lines appear); with no
structured header but some legacy header the parser falls back to the
legacy grammar; empty input and input matching neither grammar parse
to the empty sequence. -/
theorem C5_parser_precedence (text : Str) :
    ((∃ l ∈ splitlines text, (headerMatch l).isSome) →
      parseChapterEntries text = parseStructuredChapterEntries text
        ∧ parseChapterEntries text ≠ []) ∧
    ((∀ l ∈ splitlines text, headerMatch l = none) →
      (∃ l ∈ splitlines text, (legacyMatch l).isSome) →
      parseChapterEntries text = parseLegacyChapterEntries text) ∧
    (parseChapterEntries ([] : Str) = []) ∧
    ((∀ l ∈ splitlines text, headerMatch l = none ∧ legacyMatch l = none) →
      parseChapterEntries text = []) := by
  refine ⟨?_, ?_, rfl, ?_⟩
  · intro h
    have htext : text ≠ [] := by
      rintro rfl
      obtain ⟨l, hl, -⟩ := h
      cases hl
    have hany : (splitlines text).any (fun l => (headerMatch l).isSome) = true := by
      rcases h with ⟨l, hl, hsome⟩
      exact List.any_eq_true.mpr ⟨l, hl, hsome⟩
    have hne : parseStructuredChapterEntries text ≠ [] := by
      rw [parseStructuredChapterEntries]
      simp only [hany, if_pos]
      exact parseStructuredLines_ne_nil_of_header _ h
    rw [parseChapterEntries, if_neg htext]
    simp only [hne, if_neg]
    exact ⟨rfl, hne⟩
  · intro hns _
    have hnone : parseStructuredChapterEntries text = [] := by
      rw [parseStructuredChapterEntries]
      have : (splitlines text).any (fun l => (headerMatch l).isSome) = false := by
        rw [List.any_eq_false]
        intro l hl
        rw [hns l hl]
        simp
      simp [this]
    by_cases htext : text = []
    · subst htext
      rfl
    · rw [parseChapterEntries, if_neg htext]
      simp [hnone]
  · intro h
    have hnone : parseStructuredChapterEntries text = [] := by
      rw [parseStructuredChapterEntries]
      have : (splitlines text).any (fun l => (headerMatch l).isSome) = false := by
        rw [List.any_eq_false]
        intro l hl
        rw [(h l hl).1]
        simp
      simp [this]
    by_cases htext : text = []
    · subst htext
      rfl
    · rw [parseChapterEntries, if_neg htext]
      simp only [hnone, if_pos rfl]
      exact parseLegacyLines_nil_of_no_match _ fun l hl => (h l hl).2

/-- Witness for C5 at concrete inputs: a text holding both a structured
and a legacy header parses through the structured grammar; a
legacy-only text parses through the legacy grammar; junk parses to
nothing. -/
theorem C5_parser_precedence_witness :
    (parseChapterEntries ("Chapter: Chapter 1 — T\ns\nChapter 2: U - v".toList)
        = parseStructuredChapterEntries ("Chapter: Chapter 1 — T\ns\nChapter 2: U - v".toList))
      ∧ (parseChapterEntries ("Chapter 1: T - s".toList)
        = parseLegacyChapterEntries ("Chapter 1: T - s".toList))
      ∧ parseChapterEntries ("nothing to see".toList) = [] := by
  refine ⟨((C5_parser_precedence _).1 ?_).1, (C5_parser_precedence _).2.1 ?_ ?_,
    (C5_parser_precedence _).2.2.2 ?_⟩
  · exact ⟨"Chapter: Chapter 1 — T".toList, by decide, by decide⟩
  · decide
  · exact ⟨"Chapter 1: T - s".toList, by decide, by decide⟩
  · decide

/-- `(y :: l).getLast?` keeps `y` only as a fallback. -/
lemma getLast?_cons_or {γ : Type} (y : γ) (l : List γ) :
    (y :: l).getLast? = l.getLast?.or (some y) := by
  cases l with
  | nil => rfl
  | cons z zs =>
    rw [List.getLast?_cons_cons]
    obtain ⟨v, hv⟩ := Option.isSome_iff_exists.mp
      ((@List.getLast?_isSome γ (z :: zs)).mpr (by simp))
    rw [hv]
    rfl

/-- A left fold that replaces its accumulator at every element
satisfying `P` computes the last match, with the initial accumulator as
fallback. -/
lemma foldl_if_last {α β : Type} (P : α → Bool) (f : α → β) (l : List α) :
    ∀ init : Option β,
      l.foldl (fun acc x => if P x then some (f x) else acc) init
        = (((l.filter P).map f).getLast?).or init := by
  induction l with
  | nil => intro init; rfl
  | cons x xs ih =>
    intro init
    by_cases h : P x
    · rw [List.foldl_cons, if_pos h, ih, List.filter_cons_of_pos h, List.map_cons,
        getLast?_cons_or]
      cases hl : ((xs.filter P).map f).getLast? with
      | none => rfl
      | some v => rfl
    · rw [List.foldl_cons, if_neg h, ih, List.filter_cons_of_neg h]

/-- The flattened `(act, chapter-number)` pairs of the per-act entry
lists, in act order then entry order. -/
def actChapterPairs (acts : List (Nat × List ChapterEntry)) : List (Nat × Int) :=
  acts.bind fun p => p.2.map fun e => (p.1, e.number)

/-- Variant of `foldl_if_last` with the branches flipped: the fold
keeps the last element NOT satisfying `P`. -/
lemma foldl_if_last' {α β : Type} (P : α → Bool) (f : α → β) (l : List α) :
    ∀ init : Option β,
      l.foldl (fun acc x => if P x then acc else some (f x)) init
        = (((l.filter fun x => !P x).map f).getLast?).or init := by
  induction l with
  | nil => intro init; rfl
  | cons x xs ih =>
    intro init
    by_cases h : P x
    · rw [List.foldl_cons, if_pos h, ih, List.filter_cons_of_neg (by simp [h])]
    · rw [List.foldl_cons, if_neg h, ih, List.filter_cons_of_pos (by simp [h]),
        List.map_cons, getLast?_cons_or]
      cases hl : (((xs.filter fun x => !P x).map f)).getLast? with
      | none => rfl
      | some v => rfl

/-- `getLast?` over an append prefers the second list. -/
lemma getLast?_append_or {γ : Type} (A B : List γ) :
    (A ++ B).getLast? = B.getLast?.or A.getLast? :=
  List.getLast?_append

/-- `Option.or` is associative. -/
lemma option_or_assoc {γ : Type} (a b c : Option γ) :
    (a.or b).or c = a.or (b.or c) := by
  cases a <;> rfl

/-- The act-then-entry double fold keeping the last pair satisfying `b`
computes the last such pair of the flattened traversal. -/
lemma foldl_acts_last (b : Nat → Int → Bool) (acts : List (Nat × List ChapterEntry)) :
    ∀ init : Option (Nat × Int),
      acts.foldl (fun last p => p.2.foldl
        (fun lm e => if b p.1 e.number then some (p.1, e.number) else lm) last) init
        = (((actChapterPairs acts).filter fun q => b q.1 q.2).getLast?).or init := by
  induction acts with
  | nil => intro init; rfl
  | cons p acts' ih =>
    intro init
    rw [List.foldl_cons, ih,
      foldl_if_last (fun e => b p.1 e.number) (fun e => (p.1, e.number)) p.2 init]
    have hflat : actChapterPairs (p :: acts')
        = (p.2.map fun e => (p.1, e.number)) ++ actChapterPairs acts' := rfl
    have hfm : ((p.2.map fun e => (p.1, e.number)).filter fun q => b q.1 q.2)
        = ((p.2.filter fun e => b p.1 e.number).map fun e => (p.1, e.number)) := by
      rw [List.filter_map]; rfl
    rw [hflat, List.filter_append, getLast?_append_or, option_or_assoc, hfm]

/-- Same, for the drafted scan (`b` false keeps the pair). -/
lemma foldl_acts_last' (b : Nat → Int → Bool) (acts : List (Nat × List ChapterEntry)) :
    ∀ init : Option (Nat × Int),
      acts.foldl (fun last p => p.2.foldl
        (fun lm e => if b p.1 e.number then lm else some (p.1, e.number)) last) init
        = (((actChapterPairs acts).filter fun q => !b q.1 q.2).getLast?).or init := by
  induction acts with
  | nil => intro init; rfl
  | cons p acts' ih =>
    intro init
    rw [List.foldl_cons, ih,
      foldl_if_last' (fun e => b p.1 e.number) (fun e => (p.1, e.number)) p.2 init]
    have hflat : actChapterPairs (p :: acts')
        = (p.2.map fun e => (p.1, e.number)) ++ actChapterPairs acts' := rfl
    have hfm : ((p.2.map fun e => (p.1, e.number)).filter fun q => !b q.1 q.2)
        = ((p.2.filter fun e => !b p.1 e.number).map fun e => (p.1, e.number)) := by
      rw [List.filter_map]; rfl
    rw [hflat, List.filter_append, getLast?_append_or, option_or_assoc, hfm]

/-- C8: the `find_last_*` scans keep the last matching `(act, chapter)`
pair of the act-order-then-entry-order traversal; and in the scenario
of act 1 holding three planned chapters (two drafted, one not) with
acts 2 and 3 unplanned, `_find_last_unfilled_chapter` returns act 1
with the undrafted chapter's number, while
`_suggest_next_chapter_after_last_draft` returns the chapter right
after the last drafted one in the act, or `none` when the last drafted
chapter closes the act. -/
theorem C8_reconciliation_scans :
    (∀ (acts : List (Nat × List ChapterEntry)) (lookup : Nat → Int → Option Str),
      findLastUnfilledChapter acts lookup
          = ((actChapterPairs acts).filter fun q => draftBlank lookup q.1 q.2).getLast?
        ∧ findLastDraftedChapter acts lookup
          = ((actChapterPairs acts).filter fun q => !draftBlank lookup q.1 q.2).getLast?) ∧
    (∀ (e₁ e₂ e₃ : ChapterEntry) (lookup : Nat → Int → Option Str),
      e₁.number ≠ e₂.number → e₁.number ≠ e₃.number → e₂.number ≠ e₃.number →
      ((draftBlank lookup 1 e₁.number = true → draftBlank lookup 1 e₂.number = false →
          draftBlank lookup 1 e₃.number = false →
        findLastUnfilledChapter [(1, [e₁, e₂, e₃]), (2, []), (3, [])] lookup
            = some (1, e₁.number)
          ∧ suggestNextChapterAfterLastDraft [(1, [e₁, e₂, e₃]), (2, []), (3, [])] lookup
            = none) ∧
       (draftBlank lookup 1 e₁.number = false → draftBlank lookup 1 e₂.number = true →
          draftBlank lookup 1 e₃.number = false →
        findLastUnfilledChapter [(1, [e₁, e₂, e₃]), (2, []), (3, [])] lookup
            = some (1, e₂.number)
          ∧ suggestNextChapterAfterLastDraft [(1, [e₁, e₂, e₃]), (2, []), (3, [])] lookup
            = none) ∧
       (draftBlank lookup 1 e₁.number = false → draftBlank lookup 1 e₂.number = false →
          draftBlank lookup 1 e₃.number = true →
        findLastUnfilledChapter [(1, [e₁, e₂, e₃]), (2, []), (3, [])] lookup
            = some (1, e₃.number)
          ∧ suggestNextChapterAfterLastDraft [(1, [e₁, e₂, e₃]), (2, []), (3, [])] lookup
            = some (1, e₃.number)))) := by
  constructor
  · intro acts lookup
    constructor
    · have h := foldl_acts_last (fun a n => draftBlank lookup a n) acts none
      rw [findLastUnfilledChapter, h]
      cases ((actChapterPairs acts).filter fun q => draftBlank lookup q.1 q.2).getLast? with
      | none => rfl
      | some v => rfl
    · have h := foldl_acts_last' (fun a n => draftBlank lookup a n) acts none
      rw [findLastDraftedChapter, h]
      cases ((actChapterPairs acts).filter fun q => !draftBlank lookup q.1 q.2).getLast? with
      | none => rfl
      | some v => rfl
  · intro e₁ e₂ e₃ lookup h12 h13 h23
    refine ⟨fun b1 b2 b3 => ⟨?_, ?_⟩, fun b1 b2 b3 => ⟨?_, ?_⟩, fun b1 b2 b3 => ⟨?_, ?_⟩⟩
    · simp [findLastUnfilledChapter, b1, b2, b3]
    · simp [suggestNextChapterAfterLastDraft, findLastDraftedChapter, b1, b2, b3,
        suggestScan, firstBlankAfter, h13, h23, List.find?]
    · simp [findLastUnfilledChapter, b1, b2, b3]
    · simp [suggestNextChapterAfterLastDraft, findLastDraftedChapter, b1, b2, b3,
        suggestScan, firstBlankAfter, h13, h23, List.find?]
    · simp [findLastUnfilledChapter, b1, b2, b3]
    · simp [suggestNextChapterAfterLastDraft, findLastDraftedChapter, b1, b2, b3,
        suggestScan, firstBlankAfter, h12, h23, List.find?]

/-- Witness for C8 at a concrete project: act 1 plans chapters 1–3,
chapters 1 and 2 are drafted, chapter 3 is not; the last unfilled
chapter is (1, 3) and so is the suggested next chapter. -/
theorem C8_reconciliation_witness :
    findLastUnfilledChapter
        [(1, [⟨1, "a".toList, "x".toList⟩, ⟨2, "b".toList, "y".toList⟩,
          ⟨3, "c".toList, "z".toList⟩]), (2, []), (3, [])]
        (fun a n => if a = 1 && (n = 1 || n = 2) then some "prose".toList else none)
      = some (1, 3)
    ∧ suggestNextChapterAfterLastDraft
        [(1, [⟨1, "a".toList, "x".toList⟩, ⟨2, "b".toList, "y".toList⟩,
          ⟨3, "c".toList, "z".toList⟩]), (2, []), (3, [])]
        (fun a n => if a = 1 && (n = 1 || n = 2) then some "prose".toList else none)
      = some (1, 3) := by
  have h := (C8_reconciliation_scans.2 ⟨1, "a".toList, "x".toList⟩
    ⟨2, "b".toList, "y".toList⟩ ⟨3, "c".toList, "z".toList⟩
    (fun a n => if a = 1 && (n = 1 || n = 2) then some "prose".toList else none)
    (by decide) (by decide) (by decide)).2.2 (by decide) (by decide) (by decide)
  exact h

/-- The retry loop makes at most `fuel` further calls. -/
lemma runAttempts_trace_length {ε : Type} (gen : PromptData → Except ε (Option Str))
    (ctx : ActContext) (maxAttempts : Nat) :
    ∀ (fuel attempt : Nat) (prompt : PromptData) (lastR : Str) (lastE : List ChapterEntry)
      (debug : List DebugMsg) (trace : List PromptData),
      (runAttempts gen ctx maxAttempts fuel attempt prompt lastR lastE debug trace).1.length
        ≤ trace.length + fuel := by
  intro fuel
  induction fuel with
  | zero => intro attempt prompt lastR lastE debug trace; simp [runAttempts]
  | succ n ih =>
    intro attempt prompt lastR lastE debug trace
    rw [runAttempts]
    cases hg : gen prompt with
    | error e => simp
    | ok r =>
      by_cases hv : (validateChapterOutline (strip (r.getD [])) ctx.chaptersPerAct).1 = true
      · simp only [hv, if_pos]
        simp
      · simp only [hv, if_neg, Bool.not_eq_true]
        calc (runAttempts gen ctx maxAttempts n (attempt + 1) _ _ _ _
            (trace ++ [prompt])).1.length
            ≤ (trace ++ [prompt]).length + n := ih _ _ _ _ _ _
          _ = trace.length + (n + 1) := by simp [List.length_append]; omega

/-- A generation backend that never raises makes the retry loop return
`Except.ok`, whatever the validation verdicts. -/
lemma runAttempts_ok_of_gen_ok {ε : Type} (gen : PromptData → Except ε (Option Str))
    (ctx : ActContext) (maxAttempts : Nat) (hGen : ∀ p, ∃ r, gen p = Except.ok r) :
    ∀ (fuel attempt : Nat) (prompt : PromptData) (lastR : Str) (lastE : List ChapterEntry)
      (debug : List DebugMsg) (trace : List PromptData),
      ∃ res, (runAttempts gen ctx maxAttempts fuel attempt prompt lastR lastE debug trace).2
        = Except.ok res := by
  intro fuel
  induction fuel with
  | zero => intro attempt prompt lastR lastE debug trace; exact ⟨_, rfl⟩
  | succ n ih =>
    intro attempt prompt lastR lastE debug trace
    obtain ⟨r, hr⟩ := hGen prompt
    rw [runAttempts]
    rw [hr]
    by_cases hv : (validateChapterOutline (strip (r.getD [])) ctx.chaptersPerAct).1 = true
    · simp only [hv, if_pos]
      exact ⟨_, rfl⟩
    · simp only [hv, if_neg, Bool.not_eq_true]
      exact ih _ _ _ _ _ _

/-- Unfolding of the exhausted loop. -/
lemma runAttempts_zero {ε : Type} (gen : PromptData → Except ε (Option Str))
    (ctx : ActContext) (maxAttempts attempt : Nat) (prompt : PromptData) (lastR : Str)
    (lastE : List ChapterEntry) (debug : List DebugMsg) (trace : List PromptData) :
    runAttempts gen ctx maxAttempts 0 attempt prompt lastR lastE debug trace
      = (trace, Except.ok ⟨(if lastE ≠ [] then renderChapterEntries lastE else lastR),
          lastE, debug ++ [DebugMsg.exhausted ctx.actNumber maxAttempts], false⟩) := rfl

/-- One engine step when the backend raises: the exception aborts the
loop, propagated unchanged. -/
lemma runAttempts_step_error {ε : Type} (gen : PromptData → Except ε (Option Str))
    (ctx : ActContext) (maxAttempts fuel attempt : Nat) (prompt : PromptData) (lastR : Str)
    (lastE : List ChapterEntry) (debug : List DebugMsg) (trace : List PromptData) (e : ε)
    (hr : gen prompt = Except.error e) :
    runAttempts gen ctx maxAttempts (fuel + 1) attempt prompt lastR lastE debug trace
      = (trace ++ [prompt], Except.error e) := by
  rw [runAttempts, hr]

/-- One engine step on a response that passes validation. -/
lemma runAttempts_step_valid {ε : Type} (gen : PromptData → Except ε (Option Str))
    (ctx : ActContext) (maxAttempts fuel attempt : Nat) (prompt : PromptData) (lastR : Str)
    (lastE : List ChapterEntry) (debug : List DebugMsg) (trace : List PromptData)
    (r : Option Str) (hr : gen prompt = Except.ok r)
    (hval : (validateChapterOutline (strip (r.getD [])) ctx.chaptersPerAct).1 = true) :
    runAttempts gen ctx maxAttempts (fuel + 1) attempt prompt lastR lastE debug trace
      = (trace ++ [prompt], Except.ok
          ⟨renderChapterEntries
              (validateChapterOutline (strip (r.getD [])) ctx.chaptersPerAct).2.1,
            (validateChapterOutline (strip (r.getD [])) ctx.chaptersPerAct).2.1,
            debug ++ [DebugMsg.succeeded ctx.actNumber (attempt + 1)
              (validateChapterOutline (strip (r.getD [])) ctx.chaptersPerAct).2.1.length
              (strip (r.getD [])).length],
            true⟩) := by
  rw [runAttempts, hr]
  dsimp only
  rw [if_pos hval]

/-- One engine step on a response that fails validation: the loop
retries with the corrective prompt. -/
lemma runAttempts_step_invalid {ε : Type} (gen : PromptData → Except ε (Option Str))
    (ctx : ActContext) (maxAttempts fuel attempt : Nat) (prompt : PromptData) (lastR : Str)
    (lastE : List ChapterEntry) (debug : List DebugMsg) (trace : List PromptData)
    (r : Option Str) (hr : gen prompt = Except.ok r)
    (hinv : (validateChapterOutline (strip (r.getD [])) ctx.chaptersPerAct).1 = false) :
    runAttempts gen ctx maxAttempts (fuel + 1) attempt prompt lastR lastE debug trace
      = runAttempts gen ctx maxAttempts fuel (attempt + 1)
          (buildChapterPrompt ctx (some (feedbackText (errDetailOf
            (validateChapterOutline (strip (r.getD [])) ctx.chaptersPerAct).2.2)))
            (some (strip (r.getD []))))
          (strip (r.getD []))
          (validateChapterOutline (strip (r.getD [])) ctx.chaptersPerAct).2.1
          (debug ++ [DebugMsg.failed ctx.actNumber (attempt + 1)
            (errDetailOf (validateChapterOutline (strip (r.getD [])) ctx.chaptersPerAct).2.2)
            (validateChapterOutline (strip (r.getD [])) ctx.chaptersPerAct).2.1.length
            (strip (r.getD [])).length])
          (trace ++ [prompt]) := by
  rw [runAttempts, hr]
  dsimp only
  rw [if_neg (by rw [hinv]; exact Bool.false_ne_true)]

/-- An error escaping the retry loop is one the backend returned on a
recorded call, unchanged. -/
lemma runAttempts_error_mem {ε : Type} (gen : PromptData → Except ε (Option Str))
    (ctx : ActContext) (maxAttempts : Nat) :
    ∀ (fuel attempt : Nat) (prompt : PromptData) (lastR : Str) (lastE : List ChapterEntry)
      (debug : List DebugMsg) (trace : List PromptData) (e : ε),
      (runAttempts gen ctx maxAttempts fuel attempt prompt lastR lastE debug trace).2
          = Except.error e →
      ∃ p ∈ (runAttempts gen ctx maxAttempts fuel attempt prompt lastR lastE debug trace).1,
        gen p = Except.error e := by
  intro fuel
  induction fuel with
  | zero => intro attempt prompt lastR lastE debug trace e h; cases h
  | succ n ih =>
    intro attempt prompt lastR lastE debug trace e h
    cases hg : gen prompt with
    | error e' =>
      rw [runAttempts_step_error gen ctx maxAttempts n attempt prompt lastR lastE debug
        trace e' hg] at h ⊢
      cases h
      exact ⟨prompt, by simp, hg⟩
    | ok r =>
      by_cases hv : (validateChapterOutline (strip (r.getD [])) ctx.chaptersPerAct).1 = true
      · rw [runAttempts_step_valid gen ctx maxAttempts n attempt prompt lastR lastE debug
          trace r hg hv] at h
        cases h
      · have hinv : (validateChapterOutline (strip (r.getD []))
            ctx.chaptersPerAct).1 = false := Bool.eq_false_iff.mpr hv
        rw [runAttempts_step_invalid gen ctx maxAttempts n attempt prompt lastR lastE debug
          trace r hg hinv] at h ⊢
        exact ih _ _ _ _ _ _ e h

/-- When the backend only ever produces responses failing validation,
the retry loop spends all its fuel, returns the best effort, and logs
one failure line per attempt plus the exhaustion line. -/
lemma runAttempts_all_fail {ε : Type} (gen : PromptData → Except ε (Option Str))
    (ctx : ActContext) (maxAttempts : Nat)
    (hGen : ∀ p, ∃ r, gen p = Except.ok r ∧
      (validateChapterOutline (strip (r.getD [])) ctx.chaptersPerAct).1 = false) :
    ∀ (fuel : Nat), 1 ≤ fuel →
      ∀ (attempt : Nat) (prompt : PromptData) (lastR : Str) (lastE : List ChapterEntry)
        (debug : List DebugMsg) (trace : List PromptData),
      ∃ (T : List PromptData) (lastPrompt : PromptData) (r : Option Str) (res : EngineResult),
        runAttempts gen ctx maxAttempts fuel attempt prompt lastR lastE debug trace
            = (trace ++ T, Except.ok res)
          ∧ T.length = fuel ∧ T.getLast? = some lastPrompt
          ∧ gen lastPrompt = Except.ok r
          ∧ res.entries
              = (validateChapterOutline (strip (r.getD [])) ctx.chaptersPerAct).2.1
          ∧ res.formattedText = (if res.entries ≠ [] then renderChapterEntries res.entries
              else strip (r.getD []))
          ∧ res.succeeded = false
          ∧ res.debugMessages.length = debug.length + fuel + 1 := by
  intro fuel
  induction fuel with
  | zero => intro h; cases h
  | succ n ih =>
    intro _ attempt prompt lastR lastE debug trace
    obtain ⟨r, hr, hinv⟩ := hGen prompt
    rw [runAttempts_step_invalid gen ctx maxAttempts n attempt prompt lastR lastE debug
      trace r hr hinv]
    cases n with
    | zero =>
      rw [runAttempts_zero]
      refine ⟨[prompt], prompt, r, _, rfl, rfl, rfl, hr, rfl, rfl, rfl, ?_⟩
      simp only [List.length_append, List.length_cons, List.length_nil]
    | succ m =>
      obtain ⟨T', lp, r', res, heq, hlen, hlast, hgen', hent, hfmt, hsucc, hdbg⟩ :=
        ih (Nat.le_add_left 1 m) (attempt + 1)
          (buildChapterPrompt ctx (some (feedbackText (errDetailOf
            (validateChapterOutline (strip (r.getD [])) ctx.chaptersPerAct).2.2)))
            (some (strip (r.getD []))))
          (strip (r.getD []))
          (validateChapterOutline (strip (r.getD [])) ctx.chaptersPerAct).2.1
          (debug ++ [DebugMsg.failed ctx.actNumber (attempt + 1)
            (errDetailOf (validateChapterOutline (strip (r.getD [])) ctx.chaptersPerAct).2.2)
            (validateChapterOutline (strip (r.getD [])) ctx.chaptersPerAct).2.1.length
            (strip (r.getD [])).length])
          (trace ++ [prompt])
      refine ⟨prompt :: T', lp, r', res, ?_, by simp [hlen], ?_, hgen', hent, hfmt, hsucc, ?_⟩
      · rw [heq, List.append_assoc]
        rfl
      · rw [getLast?_cons_or, hlast]
        rfl
      · rw [hdbg]
        simp only [List.length_append, List.length_cons, List.length_nil]
        omega

/-- C3: the retry engine calls the generation function at most
`max_attempts` times; and when the first response already parses and
validates, it calls exactly once and returns immediately with
`succeeded = true` and the canonical rendering of the parsed entries.
(The second part presupposes a first attempt, i.e. `1 ≤ max_attempts`;
the source default is 3.) -/
theorem C3_retry_bounding {ε : Type} (gen : PromptData → Except ε (Option Str))
    (ctx : ActContext) (maxAttempts : Nat) :
    (generateSingleActChapters gen ctx maxAttempts).1.length ≤ maxAttempts ∧
    (1 ≤ maxAttempts → ∀ r : Option Str,
      gen (buildChapterPrompt ctx none none) = Except.ok r →
      (validateChapterOutline (strip (r.getD [])) ctx.chaptersPerAct).1 = true →
      generateSingleActChapters gen ctx maxAttempts
        = ([buildChapterPrompt ctx none none], Except.ok
            ⟨renderChapterEntries
                (validateChapterOutline (strip (r.getD [])) ctx.chaptersPerAct).2.1,
              (validateChapterOutline (strip (r.getD [])) ctx.chaptersPerAct).2.1,
              [DebugMsg.succeeded ctx.actNumber 1
                (validateChapterOutline (strip (r.getD [])) ctx.chaptersPerAct).2.1.length
                (strip (r.getD [])).length],
              true⟩)) := by
  constructor
  · have h := runAttempts_trace_length gen ctx maxAttempts maxAttempts 0
      (buildChapterPrompt ctx none none) [] [] [] []
    simpa [generateSingleActChapters] using h
  · intro h1 r hr hv
    obtain ⟨m, hm⟩ := Nat.exists_eq_add_of_le h1
    rw [generateSingleActChapters, hm, Nat.add_comm 1 m]
    rw [runAttempts_step_valid gen ctx (m + 1) m 0 (buildChapterPrompt ctx none none)
      [] [] [] [] r hr hv]
    rfl

/-- Witness for C3 at a concrete backend whose first response is a
valid one-chapter outline: exactly one prompt is sent and the engine
returns the canonical rendering at once. -/
theorem C3_retry_bounding_witness :
    generateSingleActChapters
        (fun _ => Except.ok (some "Chapter: Chapter 1 — T\ns".toList) :
          PromptData → Except Unit (Option Str)) ⟨1, [], [], [], [], [], 1⟩ 3
      = ([buildChapterPrompt ⟨1, [], [], [], [], [], 1⟩ none none], Except.ok
          ⟨"Chapter: Chapter 1 — T\ns".toList, [⟨1, "T".toList, "s".toList⟩],
            [DebugMsg.succeeded 1 1 1 24], true⟩) := by
  have h := (C3_retry_bounding
    (fun _ => Except.ok (some "Chapter: Chapter 1 — T\ns".toList) :
      PromptData → Except Unit (Option Str)) ⟨1, [], [], [], [], [], 1⟩ 3).2
    (by decide) (some "Chapter: Chapter 1 — T\ns".toList) rfl (by decide)
  rw [h]
  decide

/-- C4 counterexample: with a backend that always answers `"junk"`
(which fails validation) and the default three attempts, the returned
debug trail has length 4 = `max_attempts` + 1 (three failure lines and
the final summary line), not `max_attempts` as claimed. -/
theorem C4_trail_length_counterexample :
    ((generateSingleActChapters (fun _ => Except.ok (some "junk".toList) :
        PromptData → Except Unit (Option Str)) ⟨1, [], [], [], [], [], 1⟩ 3).2.map
      (fun res => res.debugMessages.length)) = Except.ok 4
    ∧ (4 : Nat) ≠ 3
    ∧ (validateChapterOutline (strip "junk".toList) 1).1 = false := by decide

/-- C4 amended: when every response the backend produces fails
validation (and none raises), the engine returns without raising:
`succeeded = false`, the formatted text is the canonical rendering of
the last attempt's parsed entries (or the raw stripped last response
when none parsed), and the debug trail has length `max_attempts + 1` —
one failure line per attempt plus the final summary line. -/
theorem C4_exhaustion_behaviour {ε : Type} (gen : PromptData → Except ε (Option Str))
    (ctx : ActContext) (maxAttempts : Nat) (h1 : 1 ≤ maxAttempts)
    (hGen : ∀ p, ∃ r, gen p = Except.ok r ∧
      (validateChapterOutline (strip (r.getD [])) ctx.chaptersPerAct).1 = false) :
    ∃ (T : List PromptData) (lastPrompt : PromptData) (r : Option Str) (res : EngineResult),
      generateSingleActChapters gen ctx maxAttempts = (T, Except.ok res)
      ∧ T.length = maxAttempts ∧ T.getLast? = some lastPrompt
      ∧ gen lastPrompt = Except.ok r
      ∧ res.succeeded = false
      ∧ res.entries = (validateChapterOutline (strip (r.getD [])) ctx.chaptersPerAct).2.1
      ∧ res.formattedText = (if res.entries ≠ [] then renderChapterEntries res.entries
          else strip (r.getD []))
      ∧ res.debugMessages.length = maxAttempts + 1 := by
  obtain ⟨T, lp, r, res, heq, hlen, hlast, hgen, hent, hfmt, hsucc, hdbg⟩ :=
    runAttempts_all_fail gen ctx maxAttempts hGen maxAttempts h1 0
      (buildChapterPrompt ctx none none) [] [] [] []
  refine ⟨T, lp, r, res, ?_, hlen, hlast, hgen, hsucc, hent, hfmt, by simpa using hdbg⟩
  rw [generateSingleActChapters, heq]
  rfl

/-- Witness for C4's amended behaviour on the always-`"junk"` backend:
the engine returns `succeeded = false`, a 4-line trail and the raw last
response (nothing parsed). -/
theorem C4_exhaustion_witness :
    ((generateSingleActChapters (fun _ => Except.ok (some "junk".toList) :
        PromptData → Except Unit (Option Str)) ⟨1, [], [], [], [], [], 1⟩ 3).2.map
      (fun res => (res.succeeded, res.debugMessages.length, res.formattedText)))
      = Except.ok (false, 4, "junk".toList) := by
  obtain ⟨T, lp, r, res, heq, hlen, hlast, hgen, hsucc, hent, hfmt, hdbg⟩ :=
    C4_exhaustion_behaviour (fun _ => Except.ok (some "junk".toList) :
        PromptData → Except Unit (Option Str)) ⟨1, [], [], [], [], [], 1⟩ 3
      (by decide) (fun p => ⟨some "junk".toList, rfl, by decide⟩)
  rw [heq]
  have hr' : r = some "junk".toList := (Except.ok.inj hgen).symm
  subst hr'
  dsimp only [Except.map]
  rw [hsucc, hdbg, hfmt, hent]
  decide

/-- C7: the retry engine never raises on parse or validation failure —
a backend that never raises makes the engine return `Except.ok`
whatever the verdicts — and when the engine raises, the exception is
one the backend returned on a recorded call, propagated unchanged. -/
theorem C7_exception_semantics {ε : Type} (gen : PromptData → Except ε (Option Str))
    (ctx : ActContext) (maxAttempts : Nat) :
    ((∀ p, ∃ r, gen p = Except.ok r) →
      ∃ res, (generateSingleActChapters gen ctx maxAttempts).2 = Except.ok res) ∧
    (∀ e, (generateSingleActChapters gen ctx maxAttempts).2 = Except.error e →
      ∃ p ∈ (generateSingleActChapters gen ctx maxAttempts).1, gen p = Except.error e) := by
  constructor
  · intro hGen
    exact runAttempts_ok_of_gen_ok gen ctx maxAttempts hGen maxAttempts 0 _ _ _ _ _
  · intro e h
    exact runAttempts_error_mem gen ctx maxAttempts maxAttempts 0 _ _ _ _ _ e h

/-- Witness for C7: a never-raising backend of invalid responses gives
an `ok` engine result; a backend raising `7` on the first call makes
the engine propagate exactly `Except.error 7`. -/
theorem C7_exception_semantics_witness :
    ((generateSingleActChapters (fun _ => Except.ok (some []) :
        PromptData → Except Unit (Option Str)) ⟨1, [], [], [], [], [], 1⟩ 3).2.map
      (fun _ => ())) = Except.ok ()
    ∧ (generateSingleActChapters (fun _ => Except.error 7 :
        PromptData → Except Nat (Option Str)) ⟨1, [], [], [], [], [], 1⟩ 3).2
      = Except.error 7 := by
  constructor
  · obtain ⟨res, h⟩ := (C7_exception_semantics (fun _ => Except.ok (some []) :
        PromptData → Except Unit (Option Str)) ⟨1, [], [], [], [], [], 1⟩ 3).1
      (fun p => ⟨some [], rfl⟩)
    rw [h]
    rfl
  · decide

/-- The per-act engine context the orchestrator builds: act number and
accumulated previous chapters vary per act, the rest comes from the
project fields, the final notes and the requested chapter count. -/
def mkActContext (project : ProjectOutlines) (finalNotes : Str) (chaptersPerAct : Int)
    (actNumber : Nat) (previousChapters : List (Nat × Str)) : ActContext :=
  ⟨actNumber,
    strip (orDefault project.outline "No outline has been provided yet.".toList),
    [(1, strip (orDefault project.act1Outline "No outline generated yet.".toList)),
     (2, strip (orDefault project.act2Outline "No outline generated yet.".toList)),
     (3, strip (orDefault project.act3Outline "No outline generated yet.".toList))],
    project.characterRoster,
    (if strip finalNotes = [] then "No additional notes provided.".toList
      else strip finalNotes),
    previousChapters, chaptersPerAct⟩

/-- C10: `_generate_chapter_outlines` raises `ValueError` for a
non-positive `chapters_per_act` before any generation call (empty
invocation trace); for a positive count it runs the engine for acts 1,
2, 3 in order, threading each act's stripped rendered text into the
next act's previous-chapters context, and assembles results, serialised
entries, concatenated debug trails plus a summary line, and the
conjunction of the per-act verdicts. -/
theorem C10_orchestrator_guard_and_threading {ε : Type}
    (gen : PromptData → Except ε (Option Str)) (project : ProjectOutlines)
    (finalNotes : Str) (chaptersPerAct : Int) :
    (chaptersPerAct ≤ 0 → generateChapterOutlines gen project finalNotes chaptersPerAct
        = ([], Except.error
            (PyError.valueError "chapters_per_act must be a positive integer".toList))) ∧
    (1 ≤ chaptersPerAct → ∀ (tr1 tr2 tr3 : List PromptData) (res1 res2 res3 : EngineResult),
      generateSingleActChapters gen (mkActContext project finalNotes chaptersPerAct 1 []) 3
          = (tr1, Except.ok res1) →
      generateSingleActChapters gen (mkActContext project finalNotes chaptersPerAct 2
          [(1, strip res1.formattedText)]) 3 = (tr2, Except.ok res2) →
      generateSingleActChapters gen (mkActContext project finalNotes chaptersPerAct 3
          [(1, strip res1.formattedText), (2, strip res2.formattedText)]) 3
          = (tr3, Except.ok res3) →
      generateChapterOutlines gen project finalNotes chaptersPerAct
        = (tr1 ++ tr2 ++ tr3, Except.ok
            ⟨[strip res1.formattedText, strip res2.formattedText, strip res3.formattedText],
             [serialiseChapterEntries res1.entries, serialiseChapterEntries res2.entries,
              serialiseChapterEntries res3.entries],
             res1.debugMessages ++ res2.debugMessages ++ res3.debugMessages
               ++ [if res1.succeeded && res2.succeeded && res3.succeeded then
                 DebugMsg.summaryAllValid else DebugMsg.summarySomeInvalid],
             res1.succeeded && res2.succeeded && res3.succeeded⟩)) := by
  constructor
  · intro h
    rw [generateChapterOutlines, if_pos h]
  · intro h tr1 tr2 tr3 res1 res2 res3 h1 h2 h3
    have h0 : ¬(chaptersPerAct ≤ 0) := by omega
    simp only [mkActContext] at h1 h2 h3
    rw [generateChapterOutlines, if_neg h0]
    dsimp only
    rw [h1]
    dsimp only
    rw [h2]
    dsimp only
    simp only [List.singleton_append]
    rw [h3]

/-- Witness for C10 at a concrete project and an always-valid backend:
`chapters_per_act = 0` is rejected up front with no generation call,
and `chapters_per_act = 1` yields three per-act results with
`all_valid = true`. -/
theorem C10_orchestrator_witness :
    ((generateChapterOutlines
        (fun _ => Except.ok (some "Chapter: Chapter 1 — T\ns".toList) :
          PromptData → Except Unit (Option Str))
        (⟨some "o".toList, some "a".toList, some "b".toList, some "c".toList,
          "r".toList⟩ : ProjectOutlines)
        "n".toList 1).2.map (fun r => (r.results, r.allValid)))
      = Except.ok (["Chapter: Chapter 1 — T\ns".toList, "Chapter: Chapter 1 — T\ns".toList,
          "Chapter: Chapter 1 — T\ns".toList], true)
    ∧ generateChapterOutlines
        (fun _ => Except.ok (some "Chapter: Chapter 1 — T\ns".toList) :
          PromptData → Except Unit (Option Str))
        (⟨some "o".toList, some "a".toList, some "b".toList, some "c".toList,
          "r".toList⟩ : ProjectOutlines)
        "n".toList 0
      = ([], Except.error (PyError.valueError
          "chapters_per_act must be a positive integer".toList)) := by
  constructor
  · have h := (C10_orchestrator_guard_and_threading
      (fun _ => Except.ok (some "Chapter: Chapter 1 — T\ns".toList) :
          PromptData → Except Unit (Option Str))
      (⟨some "o".toList, some "a".toList, some "b".toList, some "c".toList,
          "r".toList⟩ : ProjectOutlines)
      "n".toList 1).2 (by decide)
      [buildChapterPrompt (mkActContext
        (⟨some "o".toList, some "a".toList, some "b".toList, some "c".toList,
          "r".toList⟩ : ProjectOutlines)
        "n".toList 1 1 []) none none]
      [buildChapterPrompt (mkActContext
        (⟨some "o".toList, some "a".toList, some "b".toList, some "c".toList,
          "r".toList⟩ : ProjectOutlines)
        "n".toList 1 2 [(1, "Chapter: Chapter 1 — T\ns".toList)]) none none]
      [buildChapterPrompt (mkActContext
        (⟨some "o".toList, some "a".toList, some "b".toList, some "c".toList,
          "r".toList⟩ : ProjectOutlines)
        "n".toList 1 3 [(1, "Chapter: Chapter 1 — T\ns".toList), (2, "Chapter: Chapter 1 — T\ns".toList)]) none none]
      ⟨"Chapter: Chapter 1 — T\ns".toList, [⟨1, "T".toList, "s".toList⟩], [DebugMsg.succeeded 1 1 1 24], true⟩
      ⟨"Chapter: Chapter 1 — T\ns".toList, [⟨1, "T".toList, "s".toList⟩], [DebugMsg.succeeded 2 1 1 24], true⟩
      ⟨"Chapter: Chapter 1 — T\ns".toList, [⟨1, "T".toList, "s".toList⟩], [DebugMsg.succeeded 3 1 1 24], true⟩
      (by decide) (by decide) (by decide)
    rw [h]
    decide
  · exact (C10_orchestrator_guard_and_threading
      (fun _ => Except.ok (some "Chapter: Chapter 1 — T\ns".toList) :
          PromptData → Except Unit (Option Str))
      (⟨some "o".toList, some "a".toList, some "b".toList, some "c".toList,
          "r".toList⟩ : ProjectOutlines)
      "n".toList 0).1 (by decide)

/-!  Whitespace-normal-form theory: characterising the fixpoints of
`_normalise_whitespace`, needed for the serialiser-identity and
round-trip claims. -/

/-- The head of the string, when present, is not whitespace. -/
def headNotSpace? : Str → Bool
  | [] => true
  | c :: _ => !pyIsSpace c

/-- Every whitespace character is a plain space and no whitespace
character is followed by another. -/
def wsClean : Str → Bool
  | [] => true
  | c :: rest => (!pyIsSpace c || (c = ' ' && headNotSpace? rest)) && wsClean rest

/-- Normal form of `_normalise_whitespace`: clean internal whitespace
and no whitespace at either end. -/
def isNormalised (s : Str) : Bool :=
  wsClean s && headNotSpace? s && headNotSpace? s.reverse

/-- Whitespace characters have code below 48. -/
lemma toNat_lt_of_space (c : Char) (h : pyIsSpace c = true) : c.toNat < 48 := by
  rw [pyIsSpace] at h
  simp only [Bool.or_eq_true, decide_eq_true_eq] at h
  rcases h with ((((h | h) | h) | h) | h) | h <;> subst h <;> decide

/-- Digits are not whitespace. -/
lemma not_space_of_digit (c : Char) (h : pyIsDigit c = true) : pyIsSpace c = false := by
  rw [pyIsDigit] at h
  simp only [Bool.and_eq_true, decide_eq_true_eq] at h
  by_contra hc
  have := toNat_lt_of_space c (by
    cases hsp : pyIsSpace c
    · exact absurd hsp hc
    · rfl)
  omega

/-- Digits are not dash separators. -/
lemma not_dash_of_digit (c : Char) (h : pyIsDigit c = true) : isDashSep c = false := by
  rw [pyIsDigit] at h
  simp only [Bool.and_eq_true, decide_eq_true_eq] at h
  rw [isDashSep]
  simp only [Bool.or_eq_false_iff, decide_eq_false_iff_not]
  refine ⟨⟨fun hc => ?_, fun hc => ?_⟩, fun hc => ?_⟩ <;> subst hc <;> simp at h <;> omega

/-- The digit character of `d < 10` is a digit of value `d`. -/
lemma digitChar_spec (d : Nat) (h : d < 10) :
    pyIsDigit (digitChar d) = true ∧ (digitChar d).toNat - 48 = d := by
  interval_cases d <;> exact ⟨by decide, by decide⟩

/-- `digitChar` always lands in the digit class. -/
lemma digitChar_isDigit (d : Nat) : pyIsDigit (digitChar d) = true := by
  rw [digitChar]
  split
  · decide
  split
  · decide
  split
  · decide
  split
  · decide
  split
  · decide
  split
  · decide
  split
  · decide
  split
  · decide
  split
  · decide
  decide

/-- Appending a final digit multiplies the accumulated value by ten. -/
lemma digitsToNat_append_digit (A : Str) (c : Char) :
    digitsToNat (A ++ [c]) = 10 * digitsToNat A + (c.toNat - 48) := by
  rw [digitsToNat, digitsToNat, List.foldl_append]
  rfl

/-- The fuelled decimal rendering is a non-empty digit string whose
value is the rendered number, whenever the fuel suffices. -/
lemma natReprAux_spec : ∀ (fuel n : Nat), n < fuel →
    (∀ c ∈ natReprAux fuel n, pyIsDigit c = true) ∧ natReprAux fuel n ≠ []
      ∧ digitsToNat (natReprAux fuel n) = n := by
  intro fuel
  induction fuel with
  | zero => intro n h; cases h
  | succ f ih =>
    intro n hn
    by_cases h10 : n < 10
    · rw [natReprAux, if_pos h10]
      refine ⟨fun c hc => ?_, by simp, ?_⟩
      · rcases List.mem_singleton.mp hc with rfl
        exact digitChar_isDigit n
      · rw [digitsToNat]
        simp only [List.foldl_cons, List.foldl_nil]
        rw [Nat.mul_zero, Nat.zero_add]
        exact (digitChar_spec n h10).2
    · rw [natReprAux, if_neg h10]
      have hdiv : n / 10 < f := by omega
      obtain ⟨hdig, hne, hval⟩ := ih (n / 10) hdiv
      refine ⟨fun c hc => ?_, by simp, ?_⟩
      · rcases List.mem_append.mp hc with hc | hc
        · exact hdig c hc
        · rcases List.mem_singleton.mp hc with rfl
          exact digitChar_isDigit (n % 10)
      · rw [digitsToNat_append_digit, hval, (digitChar_spec (n % 10) (by omega)).2]
        omega

/-- `str(n)` facts: non-empty digit string of value `n`. -/
lemma natRepr_spec (n : Nat) :
    (∀ c ∈ natRepr n, pyIsDigit c = true) ∧ natRepr n ≠ []
      ∧ digitsToNat (natRepr n) = n :=
  natReprAux_spec (n + 1) n (Nat.lt_succ_self n)

/-- `str(i)` of a positive int is its decimal digit string. -/
lemma intRepr_of_pos (i : Int) (h : 0 < i) : intRepr i = natRepr i.toNat := by
  rw [intRepr, if_neg (by omega)]
  congr 1
  omega

/-- Clean whitespace survives dropping the head. -/
lemma wsClean_cons_tail (c : Char) (rest : Str) (h : wsClean (c :: rest) = true) :
    wsClean rest = true := by
  rw [wsClean, Bool.and_eq_true] at h
  exact h.2

/-- Clean whitespace is closed under suffixes. -/
lemma wsClean_suffix (a : Str) : ∀ b, wsClean (a ++ b) = true → wsClean b = true := by
  induction a with
  | nil => intro b h; exact h
  | cons c a' ih => intro b h; exact ih b (wsClean_cons_tail c (a' ++ b) h)

/-- A non-space head survives truncation of the tail. -/
lemma headNotSpace?_of_append (a b : Str) (h : headNotSpace? (a ++ b) = true) :
    headNotSpace? a = true := by
  cases a with
  | nil => rfl
  | cons c a' => exact h

/-- Clean whitespace is closed under prefixes. -/
lemma wsClean_prefix (a : Str) : ∀ b, wsClean (a ++ b) = true → wsClean a = true := by
  induction a with
  | nil => intro b _; rfl
  | cons c a' ih =>
    intro b h
    rw [List.cons_append, wsClean, Bool.and_eq_true] at h
    rw [wsClean, Bool.and_eq_true]
    refine ⟨?_, ih b h.2⟩
    rcases Bool.or_eq_true_iff.mp h.1 with h1 | h1
    · exact Bool.or_eq_true_iff.mpr (Or.inl h1)
    · rw [Bool.and_eq_true] at h1
      refine Bool.or_eq_true_iff.mpr (Or.inr ?_)
      rw [h1.1, headNotSpace?_of_append a' b h1.2]
      rfl

/-- The collapse state machine in in-whitespace state starts its output
with a non-space character. -/
lemma headNotSpace?_collapse_true (s : Str) :
    headNotSpace? (collapseWS true s) = true := by
  induction s with
  | nil => rfl
  | cons c cs ih =>
    rw [collapseWS]
    by_cases hsp : pyIsSpace c
    · rw [if_pos hsp, if_pos rfl]
      exact ih
    · rw [if_neg hsp]
      rw [headNotSpace?]
      simp only [Bool.not_eq_true']
      exact Bool.eq_false_iff.mpr hsp

/-- The collapse state machine outputs clean whitespace. -/
lemma wsClean_collapse (s : Str) : ∀ b, wsClean (collapseWS b s) = true := by
  induction s with
  | nil => intro b; rfl
  | cons c cs ih =>
    intro b
    rw [collapseWS]
    by_cases hsp : pyIsSpace c
    · rw [if_pos hsp]
      cases b with
      | true => rw [if_pos rfl]; exact ih true
      | false =>
        rw [if_neg Bool.false_ne_true, wsClean, Bool.and_eq_true]
        refine ⟨Bool.or_eq_true_iff.mpr (Or.inr ?_), ih true⟩
        rw [headNotSpace?_collapse_true cs]
        decide
    · rw [if_neg hsp, wsClean, Bool.and_eq_true]
      refine ⟨Bool.or_eq_true_iff.mpr (Or.inl (by
        simp only [Bool.not_eq_true']
        exact Bool.eq_false_iff.mpr hsp)), ih false⟩

/-- Dropping leading whitespace leaves a non-space head. -/
lemma headNotSpace?_dropWhile (s : Str) :
    headNotSpace? (s.dropWhile pyIsSpace) = true := by
  induction s with
  | nil => rfl
  | cons c cs ih =>
    rw [List.dropWhile_cons]
    by_cases hsp : pyIsSpace c
    · rw [if_pos hsp]; exact ih
    · rw [if_neg hsp, headNotSpace?]
      simp only [Bool.not_eq_true']
      exact Bool.eq_false_iff.mpr hsp

/-- `dropWhile` is the identity on a string with a non-space head. -/
lemma dropWhile_eq_self_of_head (s : Str) (h : headNotSpace? s = true) :
    s.dropWhile pyIsSpace = s := by
  cases s with
  | nil => rfl
  | cons c cs =>
    rw [headNotSpace?, Bool.not_eq_true'] at h
    rw [List.dropWhile_cons, if_neg (by rw [h]; exact Bool.false_ne_true)]

/-- `lstrip` is the identity on a string with a non-space head. -/
lemma lstrip_id (s : Str) (h : headNotSpace? s = true) : lstrip s = s :=
  dropWhile_eq_self_of_head s h

/-- `rstrip` is the identity on a string with a non-space last
character. -/
lemma rstrip_id (s : Str) (h : headNotSpace? s.reverse = true) : rstrip s = s := by
  rw [rstrip, dropWhile_eq_self_of_head s.reverse h, List.reverse_reverse]

/-- `strip` is the identity on a string with non-space ends. -/
lemma strip_eq_self_of (s : Str) (h1 : headNotSpace? s = true)
    (h2 : headNotSpace? s.reverse = true) : strip s = s := by
  rw [strip, lstrip_id s h1, rstrip_id s h2]

/-- Every string is some whitespace followed by its `lstrip`. -/
lemma exists_append_lstrip (s : Str) : ∃ a, s = a ++ lstrip s :=
  ⟨s.takeWhile pyIsSpace, (List.takeWhile_append_dropWhile pyIsSpace s).symm⟩

/-- Every string is its `rstrip` followed by some whitespace. -/
lemma exists_append_rstrip (s : Str) : ∃ b, s = rstrip s ++ b := by
  refine ⟨(s.reverse.takeWhile pyIsSpace).reverse, ?_⟩
  rw [rstrip, ← List.reverse_append, List.takeWhile_append_dropWhile, List.reverse_reverse]

/-- `strip` preserves clean whitespace. -/
lemma wsClean_strip (s : Str) (h : wsClean s = true) : wsClean (strip s) = true := by
  have h1 : wsClean (lstrip s) = true := by
    obtain ⟨a, ha⟩ := exists_append_lstrip s
    exact wsClean_suffix a (lstrip s) (ha ▸ h)
  obtain ⟨b, hb⟩ := exists_append_rstrip (lstrip s)
  exact wsClean_prefix (strip s) b (by rw [strip, ← hb]; exact h1)

/-- A non-space head survives `rstrip`. -/
lemma headNotSpace?_rstrip (t : Str) (h : headNotSpace? t = true) :
    headNotSpace? (rstrip t) = true := by
  obtain ⟨b, hb⟩ := exists_append_rstrip t
  exact headNotSpace?_of_append (rstrip t) b (hb ▸ h)

/-- Stripping a string with clean whitespace yields a normalised
string. -/
lemma isNormalised_strip (s : Str) (h : wsClean s = true) :
    isNormalised (strip s) = true := by
  rw [isNormalised, Bool.and_eq_true, Bool.and_eq_true]
  refine ⟨⟨wsClean_strip s h, ?_⟩, ?_⟩
  · rw [strip]
    exact headNotSpace?_rstrip (lstrip s) (headNotSpace?_dropWhile s)
  · rw [strip, rstrip, List.reverse_reverse]
    exact headNotSpace?_dropWhile (lstrip s).reverse

/-- The output of `_normalise_whitespace` is normalised. -/
lemma isNormalised_normalise (s : Str) :
    isNormalised (normaliseWhitespace s) = true :=
  isNormalised_strip _ (wsClean_collapse s false)

/-- On clean whitespace the collapse state machine is the identity. -/
lemma collapse_id (s : Str) : wsClean s = true →
    collapseWS false s = s ∧ (headNotSpace? s = true → collapseWS true s = s) := by
  induction s with
  | nil => intro _; exact ⟨rfl, fun _ => rfl⟩
  | cons c cs ih =>
    intro h
    obtain ⟨ih0, ih1⟩ := ih (wsClean_cons_tail c cs h)
    rw [wsClean, Bool.and_eq_true] at h
    by_cases hsp : pyIsSpace c
    · have h1 : c = ' ' ∧ headNotSpace? cs = true := by
        rcases Bool.or_eq_true_iff.mp h.1 with h1 | h1
        · rw [Bool.not_eq_true', hsp] at h1; cases h1
        · rw [Bool.and_eq_true, decide_eq_true_eq] at h1
          exact h1
      constructor
      · rw [collapseWS, if_pos hsp, if_neg Bool.false_ne_true, ih1 h1.2, h1.1]
      · intro hh
        rw [headNotSpace?, Bool.not_eq_true', hsp] at hh
        cases hh
    · constructor
      · rw [collapseWS, if_neg hsp, ih0]
      · intro _
        rw [collapseWS, if_neg hsp, ih0]

/-- Normalised strings are fixpoints of `_normalise_whitespace`. -/
lemma normalise_id_of_isNormalised (s : Str) (h : isNormalised s = true) :
    normaliseWhitespace s = s := by
  rw [isNormalised, Bool.and_eq_true, Bool.and_eq_true] at h
  rw [normaliseWhitespace, (collapse_id s h.1.1).1, strip_eq_self_of s h.1.2 h.2]

/-- `_normalise_whitespace` is idempotent. -/
lemma normalise_idem (s : Str) :
    normaliseWhitespace (normaliseWhitespace s) = normaliseWhitespace s :=
  normalise_id_of_isNormalised _ (isNormalised_normalise s)

/-- Fixpoints of `_normalise_whitespace` are normalised. -/
lemma isNormalised_of_fix (s : Str) (h : normaliseWhitespace s = s) :
    isNormalised s = true :=
  h ▸ isNormalised_normalise s

/-- In clean whitespace every whitespace character is a plain space. -/
lemma wsClean_space_char (s : Str) : wsClean s = true →
    ∀ c ∈ s, pyIsSpace c = true → c = ' ' := by
  induction s with
  | nil => intro _ c hc; cases hc
  | cons d rest ih =>
    intro h c hc hsp
    rcases List.mem_cons.mp hc with rfl | hc
    · rw [wsClean, Bool.and_eq_true] at h
      rcases Bool.or_eq_true_iff.mp h.1 with h1 | h1
      · rw [Bool.not_eq_true', hsp] at h1; cases h1
      · rw [Bool.and_eq_true, decide_eq_true_eq] at h1
        exact h1.1
    · exact ih (wsClean_cons_tail d rest h) c hc hsp

/-- Clean whitespace contains no newline. -/
lemma newline_not_mem_of_wsClean (s : Str) (h : wsClean s = true) : '\n' ∉ s := by
  intro hm
  have := wsClean_space_char s h '\n' hm (by decide)
  cases this

/-- Extract the clean-whitespace component of `isNormalised`. -/
lemma wsClean_of_isNormalised (s : Str) (h : isNormalised s = true) :
    wsClean s = true := by
  rw [isNormalised, Bool.and_eq_true, Bool.and_eq_true] at h
  exact h.1.1

/-- Both entries have normalised title and summary. -/
def entryNF (e : ChapterEntry) : Prop :=
  normaliseWhitespace e.title = e.title ∧ normaliseWhitespace e.summary = e.summary

/-- A successful dash split decomposes the string around a dash. -/
lemma splitFirstDash_eq (s : Str) : ∀ l r, splitFirstDash s = some (l, r) →
    ∃ d, isDashSep d = true ∧ s = l ++ d :: r := by
  induction s with
  | nil => intro l r h; cases h
  | cons c cs ih =>
    intro l r h
    rw [splitFirstDash] at h
    by_cases hd : isDashSep c
    · rw [if_pos hd] at h
      simp only [Option.some.injEq, Prod.mk.injEq] at h
      obtain ⟨h1, h2⟩ := h
      exact ⟨c, hd, by rw [← h1, ← h2]; rfl⟩
    · rw [if_neg hd] at h
      cases hsp : splitFirstDash cs with
      | none => rw [hsp] at h; cases h
      | some p =>
        obtain ⟨pl, pr⟩ := p
        rw [hsp] at h
        simp only [Option.some.injEq, Prod.mk.injEq] at h
        obtain ⟨h1, h2⟩ := h
        obtain ⟨d, hd', hcs⟩ := ih pl pr hsp
        exact ⟨d, hd', by rw [← h1, ← h2, hcs]; rfl⟩

/-- On clean-whitespace input `_extract_title_summary` yields
normalised title and summary. -/
lemma extract_fields_of_wsClean (raw : Str) (h : wsClean raw = true) :
    normaliseWhitespace (extractTitleSummary raw).1 = (extractTitleSummary raw).1
      ∧ normaliseWhitespace (extractTitleSummary raw).2 = (extractTitleSummary raw).2 := by
  rw [extractTitleSummary]
  by_cases hr : raw = []
  · rw [if_pos hr]
    exact ⟨rfl, rfl⟩
  · rw [if_neg hr]
    cases hsp : splitFirstDash raw with
    | none =>
      exact ⟨normalise_id_of_isNormalised _ (isNormalised_strip raw h), rfl⟩
    | some p =>
      obtain ⟨l, r⟩ := p
      obtain ⟨d, hd, heq⟩ := splitFirstDash_eq raw l r hsp
      have hl : wsClean l = true := wsClean_prefix l (d :: r) (heq ▸ h)
      have hrr : wsClean r = true :=
        wsClean_cons_tail d r (wsClean_suffix l (d :: r) (heq ▸ h))
      exact ⟨normalise_id_of_isNormalised _ (isNormalised_strip l hl),
        normalise_id_of_isNormalised _ (isNormalised_strip r hrr)⟩

/-- Entries flushed by the legacy parser have normalised fields. -/
lemma flushLegacy_NF (cur : Int × Str) : entryNF (flushLegacy cur) := by
  rw [flushLegacy, entryNF]
  exact extract_fields_of_wsClean (normaliseWhitespace cur.2)
    (wsClean_of_isNormalised _ (isNormalised_normalise cur.2))

/-- Entries flushed by the structured parser have normalised fields as
soon as the stored title does. -/
lemma flushStructured_NF (cur : Int × Str × List Str)
    (h : normaliseWhitespace cur.2.1 = cur.2.1) : entryNF (flushStructured cur) :=
  ⟨h, normalise_idem _⟩

/-- Every entry the structured line loop emits has normalised fields,
provided the current record's stored title is normalised. -/
lemma parseStructuredLines_NF (lines : List Str) :
    ∀ (cur : Option (Int × Str × List Str)),
      (∀ n t ls, cur = some (n, t, ls) → normaliseWhitespace t = t) →
      ∀ e ∈ parseStructuredLines cur lines, entryNF e := by
  induction lines with
  | nil =>
    intro cur hcur e he
    cases cur with
    | none => cases he
    | some c =>
      rcases List.mem_singleton.mp he with rfl
      exact flushStructured_NF c (hcur c.1 c.2.1 c.2.2 rfl)
  | cons line rest ih =>
    intro cur hcur e he
    cases cur with
    | none =>
      rw [parseStructuredLines] at he
      split at he
      · exact ih _ (by
          intro n' t' ls' hh
          simp only [Option.some.injEq, Prod.mk.injEq] at hh
          rw [← hh.2.1]
          exact normalise_idem _) e he
      · exact ih none (by intro n' t' ls' hh; cases hh) e he
    | some c =>
      obtain ⟨n, t, ls⟩ := c
      rw [parseStructuredLines] at he
      split at he
      · rcases List.mem_cons.mp he with rfl | he
        · exact flushStructured_NF (n, t, ls) (hcur n t ls rfl)
        · exact ih _ (by
            intro n' t' ls' hh
            simp only [Option.some.injEq, Prod.mk.injEq] at hh
            rw [← hh.2.1]
            exact normalise_idem _) e he
      · dsimp only at he
        split at he
        · exact ih _ (by
            intro n' t' ls' hh
            simp only [Option.some.injEq, Prod.mk.injEq] at hh
            rw [← hh.2.1]
            exact hcur n t ls rfl) e he
        · exact ih _ (by
            intro n' t' ls' hh
            simp only [Option.some.injEq, Prod.mk.injEq] at hh
            rw [← hh.2.1]
            exact hcur n t ls rfl) e he

/-- Every entry the legacy line loop emits has normalised fields. -/
lemma parseLegacyLines_NF (lines : List Str) :
    ∀ (cur : Option (Int × Str)), ∀ e ∈ parseLegacyLines cur lines, entryNF e := by
  induction lines with
  | nil =>
    intro cur e he
    cases cur with
    | none => cases he
    | some c =>
      rcases List.mem_singleton.mp he with rfl
      exact flushLegacy_NF c
  | cons line rest ih =>
    intro cur e he
    cases cur with
    | none =>
      rw [parseLegacyLines] at he
      split at he
      · exact ih _ e he
      · exact ih none e he
    | some c =>
      obtain ⟨n, raw⟩ := c
      rw [parseLegacyLines] at he
      split at he
      · rcases List.mem_cons.mp he with rfl | he
        · exact flushLegacy_NF (n, raw)
        · exact ih _ e he
      · dsimp only at he
        split at he
        · exact ih _ e he
        · exact ih _ e he

/-- Serialisation is the identity on entries with normalised fields. -/
lemma serialise_id_of_NF (l : List ChapterEntry) (h : ∀ e ∈ l, entryNF e) :
    serialiseChapterEntries l = l := by
  induction l with
  | nil => rfl
  | cons e rest ih =>
    rw [serialiseChapterEntries, List.map_cons]
    have he := h e (List.mem_cons_self _ _)
    rw [he.1, he.2]
    rw [show (⟨e.number, e.title, e.summary⟩ : ChapterEntry) = e from rfl]
    exact congrArg (List.cons e) (ih fun x hx => h x (List.mem_cons_of_mem _ hx))

/-- Every entry `_parse_chapter_entries` emits has normalised fields. -/
lemma parseChapterEntries_NF (t : Str) : ∀ e ∈ parseChapterEntries t, entryNF e := by
  rw [parseChapterEntries]
  by_cases ht : t = []
  · rw [if_pos ht]; intro e he; cases he
  · rw [if_neg ht]
    by_cases hs : parseStructuredChapterEntries t = []
    · rw [if_pos hs]
      rw [parseLegacyChapterEntries]
      exact parseLegacyLines_NF (splitlines t) none
    · rw [if_neg hs]
      intro e he
      rw [parseStructuredChapterEntries] at he
      by_cases hany : (splitlines t).any (fun l => (headerMatch l).isSome) = true
      · rw [if_pos hany] at he
        exact parseStructuredLines_NF (splitlines t) none (by intro n t' ls hh; cases hh) e he
      · rw [if_neg hany] at he
        cases he

/-- C9: serialisation is the identity on parser output — every entry
either grammar emits already carries an integer number and
whitespace-normalised title and summary, so
`serialize(parse(t)) = parse(t)` for every text, and serialisation is
idempotent on parsed entries. -/
theorem C9_serialise_identity_on_parse (t : Str) :
    serialiseChapterEntries (parseChapterEntries t) = parseChapterEntries t
      ∧ serialiseChapterEntries (serialiseChapterEntries (parseChapterEntries t))
        = serialiseChapterEntries (parseChapterEntries t) := by
  have h := serialise_id_of_NF (parseChapterEntries t) (parseChapterEntries_NF t)
  exact ⟨h, by rw [h, h]⟩

/-!  Round-trip theory: rendering normalised entries and parsing the
result back. -/

/-- The header line `render` emits for an entry with positive number
and non-empty title. -/
def headerLineOf (e : ChapterEntry) : Str :=
  "Chapter: Chapter ".toList ++ natRepr e.number.toNat ++ (' ' :: '—' :: ' ' :: e.title)

/-- The line stream that follows a first rendered section: a blank
separator line, then each entry's header and summary lines. -/
def restLines : List ChapterEntry → List Str
  | [] => []
  | e :: rest => [] :: headerLineOf e :: e.summary :: restLines rest

/-- The scanner's behaviour on a line starting with the literal
`"Chapter: Chapter "`: the concrete prefix (including the mandatory
whitespace after the second `Chapter`) is consumed outright. -/
lemma headerMatch_unfold (rest : Str) :
    headerMatch ("Chapter: Chapter ".toList ++ rest)
      = (let s := rest.dropWhile pyIsSpace
         if s.takeWhile pyIsDigit = [] then none
         else
           match ((s.dropWhile pyIsDigit).dropWhile pyIsSpace : Str) with
           | [] => none
           | d :: s =>
             if isDashSep d then
               some (digitsToNat ((rest.dropWhile pyIsSpace).takeWhile pyIsDigit),
                 s.dropWhile pyIsSpace)
             else none) := rfl

/-- `takeWhile` runs through a block wholly inside the class. -/
lemma takeWhile_append_all (p : Char → Bool) (A : Str) :
    ∀ B, (∀ a ∈ A, p a = true) → (A ++ B).takeWhile p = A ++ B.takeWhile p := by
  induction A with
  | nil => intro B _; rfl
  | cons a A' ih =>
    intro B h
    rw [List.cons_append, List.takeWhile_cons, if_pos (h a (List.mem_cons_self _ _)),
      ih B fun x hx => h x (List.mem_cons_of_mem _ hx)]
    rfl

/-- `dropWhile` runs through a block wholly inside the class. -/
lemma dropWhile_append_all (p : Char → Bool) (A : Str) :
    ∀ B, (∀ a ∈ A, p a = true) → (A ++ B).dropWhile p = B.dropWhile p := by
  induction A with
  | nil => intro B _; rfl
  | cons a A' ih =>
    intro B h
    rw [List.cons_append, List.dropWhile_cons, if_pos (h a (List.mem_cons_self _ _)),
      ih B fun x hx => h x (List.mem_cons_of_mem _ hx)]

/-- The structured header pattern matches the rendered header line,
recovering the number and the title. -/
lemma headerMatch_headerLine (n : Nat) (title : Str) (hn : 0 < n)
    (ht : headNotSpace? title = true) :
    headerMatch ("Chapter: Chapter ".toList ++ (natRepr n ++ (' ' :: '—' :: ' ' :: title)))
      = some (n, title) := by
  obtain ⟨hdig, hne, hval⟩ := natRepr_spec n
  rw [headerMatch_unfold]
  have hns : headNotSpace? (natRepr n ++ (' ' :: '—' :: ' ' :: title)) = true := by
    obtain ⟨d, D, hD⟩ := List.exists_cons_of_ne_nil hne
    rw [hD, List.cons_append, headNotSpace?, Bool.not_eq_true',
      not_space_of_digit d (hdig d (hD ▸ List.mem_cons_self _ _))]
  have hds : (natRepr n ++ (' ' :: '—' :: ' ' :: title)).dropWhile pyIsSpace
      = natRepr n ++ (' ' :: '—' :: ' ' :: title) :=
    dropWhile_eq_self_of_head _ hns
  have htake : (natRepr n ++ (' ' :: '—' :: ' ' :: title)).takeWhile pyIsDigit
      = natRepr n := by
    rw [takeWhile_append_all pyIsDigit (natRepr n) _ hdig, List.takeWhile_cons,
      if_neg (show ¬(pyIsDigit ' ' = true) from by decide), List.append_nil]
  have hdrop : ((natRepr n ++ (' ' :: '—' :: ' ' :: title)).dropWhile
      pyIsDigit).dropWhile pyIsSpace = '—' :: ' ' :: title := by
    rw [dropWhile_append_all pyIsDigit (natRepr n) _ hdig, List.dropWhile_cons,
      if_neg (show ¬(pyIsDigit ' ' = true) from by decide), List.dropWhile_cons,
      if_pos (show pyIsSpace ' ' = true from by decide), List.dropWhile_cons,
      if_neg (show ¬(pyIsSpace '—' = true) from by decide)]
  dsimp only
  rw [hds, htake, if_neg hne, hdrop]
  dsimp only
  rw [if_pos (show isDashSep '—' = true from by decide)]
  rw [List.dropWhile_cons, if_pos (show pyIsSpace ' ' = true from by decide),
    dropWhile_eq_self_of_head title ht, hval]

/-- Digits are not newlines. -/
lemma not_newline_of_digit (c : Char) (h : pyIsDigit c = true) : c ≠ '\n' := by
  rintro rfl
  rw [show pyIsDigit '\n' = false from by decide] at h
  cases h

/-- The rendered header line holds no newline when the title's
whitespace is clean. -/
lemma newline_not_mem_headerLine (e : ChapterEntry) (ht : wsClean e.title = true) :
    '\n' ∉ headerLineOf e := by
  intro hm
  rw [headerLineOf] at hm
  simp only [List.mem_append, List.mem_cons] at hm
  rcases hm with (hm | hm) | (hm | hm | hm | hm)
  · exact absurd hm (by decide)
  · exact not_newline_of_digit '\n' ((natRepr_spec e.number.toNat).1 '\n' hm) rfl
  · exact absurd hm (by decide)
  · exact absurd hm (by decide)
  · exact absurd hm (by decide)
  · exact newline_not_mem_of_wsClean e.title ht hm

/-- Splitting at an explicit newline after a newline-free block. -/
lemma splitlines_append_newline (A : Str) :
    ∀ B, '\n' ∉ A → splitlines (A ++ '\n' :: B) = A :: splitlines B := by
  induction A with
  | nil => intro B _; rw [List.nil_append, splitlines, if_pos rfl]
  | cons c A' ih =>
    intro B hA
    have hc : ¬(c = '\n') := fun hc => hA (hc ▸ List.mem_cons_self _ _)
    rw [List.cons_append, splitlines, if_neg hc,
      ih B fun hm => hA (List.mem_cons_of_mem _ hm)]

/-- A non-empty newline-free block is a single line. -/
lemma splitlines_no_newline (A : Str) (hne : A ≠ []) (h : '\n' ∉ A) :
    splitlines A = [A] := by
  induction A with
  | nil => exact absurd rfl hne
  | cons c A' ih =>
    have hc : ¬(c = '\n') := fun hc => h (hc ▸ List.mem_cons_self _ _)
    rw [splitlines, if_neg hc]
    by_cases hA' : A' = []
    · subst hA'
      rfl
    · rw [ih hA' fun hm => h (List.mem_cons_of_mem _ hm)]

/-- The round-trip hypotheses on one entry: normalised non-empty title
and summary, and a summary that is not itself a header line. -/
def C2cond (e : ChapterEntry) : Prop :=
  normaliseWhitespace e.title = e.title ∧ e.title ≠ []
    ∧ normaliseWhitespace e.summary = e.summary ∧ e.summary ≠ []
    ∧ headerMatch e.summary = none

instance : DecidablePred C2cond := fun e =>
  inferInstanceAs (Decidable (normaliseWhitespace e.title = e.title ∧ e.title ≠ []
    ∧ normaliseWhitespace e.summary = e.summary ∧ e.summary ≠ []
    ∧ headerMatch e.summary = none))

/-- Head component of `isNormalised`. -/
lemma isNormalised_head (s : Str) (h : isNormalised s = true) :
    headNotSpace? s = true := by
  rw [isNormalised, Bool.and_eq_true, Bool.and_eq_true] at h
  exact h.1.2

/-- Reverse-head component of `isNormalised`. -/
lemma isNormalised_revhead (s : Str) (h : isNormalised s = true) :
    headNotSpace? s.reverse = true := by
  rw [isNormalised, Bool.and_eq_true, Bool.and_eq_true] at h
  exact h.2

/-- A non-space head survives appending on the right. -/
lemma headNotSpace?_append_left (X Y : Str) (hne : X ≠ [])
    (h : headNotSpace? X = true) : headNotSpace? (X ++ Y) = true := by
  cases X with
  | nil => exact absurd rfl hne
  | cons c X' => exact h

/-- Appending cannot erase a non-empty left part. -/
lemma append_ne_nil_left (X Y : Str) (hne : X ≠ []) : X ++ Y ≠ [] := by
  cases X with
  | nil => exact absurd rfl hne
  | cons c X' => simp

/-- On a normalised entry, `render`'s section is the header line
followed by the summary line. -/
lemma renderEntry_NF (e : ChapterEntry) (hn : 0 < e.number) (h : C2cond e) :
    renderEntry e = headerLineOf e ++ '\n' :: e.summary := by
  obtain ⟨ht, htne, hs, hsne, _⟩ := h
  have htN := isNormalised_of_fix _ ht
  have hsN := isNormalised_of_fix _ hs
  have htstrip : strip e.title = e.title :=
    strip_eq_self_of _ (isNormalised_head _ htN) (isNormalised_revhead _ htN)
  have hsstrip : strip e.summary = e.summary :=
    strip_eq_self_of _ (isNormalised_head _ hsN) (isNormalised_revhead _ hsN)
  have hsplit : headerLineOf e
      = ("Chapter: Chapter ".toList ++ natRepr e.number.toNat ++ [' ', '—', ' '])
        ++ e.title := by
    rw [headerLineOf]
    simp only [List.append_assoc]
    rfl
  have hH : "Chapter: Chapter ".toList ++ intRepr e.number ++ " — ".toList ++ e.title
      = headerLineOf e := by
    rw [intRepr_of_pos e.number hn, headerLineOf]
    simp only [List.append_assoc]
    rfl
  have hHne : headerLineOf e ≠ [] := by
    rw [headerLineOf]
    exact append_ne_nil_left _ _ (append_ne_nil_left _ _ (by decide))
  have hHhead : headNotSpace? (headerLineOf e) = true := by
    rw [headerLineOf]
    exact headNotSpace?_append_left _ _ (append_ne_nil_left _ _ (by decide))
      (headNotSpace?_append_left _ _ (by decide) (by decide))
  have hHrev : headNotSpace? (headerLineOf e).reverse = true := by
    rw [hsplit, List.reverse_append]
    exact headNotSpace?_append_left _ _
      (by simp only [ne_eq, List.reverse_eq_nil_iff]; exact htne)
      (isNormalised_revhead _ htN)
  rw [renderEntry]
  rw [htstrip, hsstrip, if_neg htne, hH, if_neg hsne,
    strip_eq_self_of _ hHhead hHrev]
  rw [show joinSep ['\n'] [headerLineOf e, e.summary]
      = headerLineOf e ++ '\n' :: e.summary from by
    show (headerLineOf e ++ ['\n']) ++ e.summary = headerLineOf e ++ '\n' :: e.summary
    simp only [List.append_assoc]
    rfl]
  refine strip_eq_self_of _ (headNotSpace?_append_left _ _ hHne hHhead) ?_
  rw [List.reverse_append]
  refine headNotSpace?_append_left _ _ (by simp) ?_
  rw [List.reverse_cons]
  exact headNotSpace?_append_left _ _
    (by simp only [ne_eq, List.reverse_eq_nil_iff]; exact hsne)
    (isNormalised_revhead _ hsN)

/-- Rendered header lines are never empty. -/
lemma headerLineOf_ne_nil (e : ChapterEntry) : headerLineOf e ≠ [] := by
  rw [headerLineOf]
  exact append_ne_nil_left _ _ (append_ne_nil_left _ _ (by decide))

/-- Rendered header lines start with a non-space character. -/
lemma headerLineOf_head (e : ChapterEntry) :
    headNotSpace? (headerLineOf e) = true := by
  rw [headerLineOf]
  exact headNotSpace?_append_left _ _ (append_ne_nil_left _ _ (by decide))
    (headNotSpace?_append_left _ _ (by decide) (by decide))

/-- The structured pattern matches a rendered header line, recovering
number and title. -/
lemma headerMatch_headerLineOf (e : ChapterEntry) (hn : 0 < e.number)
    (ht : normaliseWhitespace e.title = e.title) :
    headerMatch (headerLineOf e) = some (e.number.toNat, e.title) := by
  rw [headerLineOf, List.append_assoc]
  exact headerMatch_headerLine e.number.toNat e.title (by omega)
    (isNormalised_head _ (isNormalised_of_fix _ ht))

/-- Unfolding of a two-or-more-section join. -/
lemma joinSep_cons_cons (sep x y : Str) (l : List Str) :
    joinSep sep (x :: y :: l) = (x ++ sep) ++ joinSep sep (y :: l) := rfl

/-- A join starting from a non-empty section is non-empty. -/
lemma joinSep_cons_ne_nil (sep : Str) (l : List Str) (x : Str) (hx : x ≠ []) :
    joinSep sep (x :: l) ≠ [] := by
  cases l with
  | nil => exact hx
  | cons y l' =>
    rw [joinSep_cons_cons]
    exact append_ne_nil_left _ _ (append_ne_nil_left _ _ hx)

/-- A join starting from a section with non-space head keeps that
head. -/
lemma headNotSpace?_joinSep_cons (sep : Str) (l : List Str) (x : Str) (hx : x ≠ [])
    (h : headNotSpace? x = true) : headNotSpace? (joinSep sep (x :: l)) = true := by
  cases l with
  | nil => exact h
  | cons y l' =>
    rw [joinSep_cons_cons]
    exact headNotSpace?_append_left _ _ (append_ne_nil_left _ _ hx)
      (headNotSpace?_append_left _ _ hx h)

/-- The join of rendered sections ends with the last summary's
non-space last character. -/
lemma revhead_join : ∀ (rest : List ChapterEntry) (e : ChapterEntry),
    C2cond e → 0 < e.number → (∀ f ∈ rest, C2cond f ∧ 0 < f.number) →
    headNotSpace? (joinSep ['\n', '\n'] ((e :: rest).map renderEntry)).reverse = true := by
  intro rest
  induction rest with
  | nil =>
    intro e he hn _
    rw [List.map_cons, List.map_nil]
    show headNotSpace? (renderEntry e).reverse = true
    rw [renderEntry_NF e hn he, List.reverse_append, List.reverse_cons]
    obtain ⟨_, _, hs, hsne, _⟩ := he
    refine headNotSpace?_append_left _ _ (append_ne_nil_left _ _ ?_) ?_
    · simp only [ne_eq, List.reverse_eq_nil_iff]
      exact hsne
    · exact headNotSpace?_append_left _ _
        (by simp only [ne_eq, List.reverse_eq_nil_iff]; exact hsne)
        (isNormalised_revhead _ (isNormalised_of_fix _ hs))
  | cons f rest' ih =>
    intro e he hn hrest
    rw [List.map_cons, List.map_cons, joinSep_cons_cons, List.reverse_append]
    have hf := hrest f (List.mem_cons_self _ _)
    have hj := ih f hf.1 hf.2 fun g hg => hrest g (List.mem_cons_of_mem _ hg)
    rw [List.map_cons] at hj
    refine headNotSpace?_append_left _ _ ?_ hj
    simp only [ne_eq, List.reverse_eq_nil_iff]
    exact joinSep_cons_ne_nil _ _ _ (by
      rw [renderEntry_NF f hf.2 hf.1]
      exact append_ne_nil_left _ _ (headerLineOf_ne_nil f))

/-- On normalised entries the outer `strip` of `render` is the
identity. -/
lemma renderChapterEntries_NF (e : ChapterEntry) (rest : List ChapterEntry)
    (he : C2cond e ∧ 0 < e.number) (hrest : ∀ f ∈ rest, C2cond f ∧ 0 < f.number) :
    renderChapterEntries (e :: rest)
      = joinSep ['\n', '\n'] ((e :: rest).map renderEntry) := by
  rw [renderChapterEntries]
  refine strip_eq_self_of _ ?_ (revhead_join rest e he.1 he.2 hrest)
  rw [List.map_cons]
  refine headNotSpace?_joinSep_cons _ _ _ ?_ ?_
  · rw [renderEntry_NF e he.2 he.1]
    exact append_ne_nil_left _ _ (headerLineOf_ne_nil e)
  · rw [renderEntry_NF e he.2 he.1]
    exact headNotSpace?_append_left _ _ (headerLineOf_ne_nil e) (headerLineOf_head e)

/-- Splitting the joined sections yields header and summary lines with
blank separator lines. -/
lemma splitlines_join : ∀ (rest : List ChapterEntry) (e : ChapterEntry),
    C2cond e → 0 < e.number → (∀ f ∈ rest, C2cond f ∧ 0 < f.number) →
    splitlines (joinSep ['\n', '\n'] ((e :: rest).map renderEntry))
      = headerLineOf e :: e.summary :: restLines rest := by
  intro rest
  induction rest with
  | nil =>
    intro e he hn _
    rw [List.map_cons, List.map_nil]
    show splitlines (renderEntry e) = _
    rw [renderEntry_NF e hn he,
      splitlines_append_newline (headerLineOf e) e.summary
        (newline_not_mem_headerLine e
          (wsClean_of_isNormalised _ (isNormalised_of_fix _ he.1))),
      splitlines_no_newline e.summary he.2.2.2.1
        (newline_not_mem_of_wsClean _
          (wsClean_of_isNormalised _ (isNormalised_of_fix _ he.2.2.1)))]
    rfl
  | cons f rest' ih =>
    intro e he hn hrest
    have hf := hrest f (List.mem_cons_self _ _)
    have hj := ih f hf.1 hf.2 fun g hg => hrest g (List.mem_cons_of_mem _ hg)
    rw [List.map_cons, List.map_cons, joinSep_cons_cons, renderEntry_NF e hn he]
    rw [show ((headerLineOf e ++ '\n' :: e.summary) ++ ['\n', '\n'])
          ++ joinSep ['\n', '\n'] (renderEntry f :: rest'.map renderEntry)
        = headerLineOf e ++ '\n' :: (e.summary ++ '\n'
          :: ('\n' :: joinSep ['\n', '\n'] (renderEntry f :: rest'.map renderEntry)))
      from by simp only [List.append_assoc, List.cons_append, List.nil_append]]
    rw [splitlines_append_newline (headerLineOf e) _
      (newline_not_mem_headerLine e
        (wsClean_of_isNormalised _ (isNormalised_of_fix _ he.1)))]
    rw [splitlines_append_newline e.summary _
      (newline_not_mem_of_wsClean _
        (wsClean_of_isNormalised _ (isNormalised_of_fix _ he.2.2.1)))]
    rw [show splitlines ('\n' :: joinSep ['\n', '\n'] (renderEntry f :: rest'.map renderEntry))
        = [] :: splitlines (joinSep ['\n', '\n'] (renderEntry f :: rest'.map renderEntry))
      from by rw [splitlines, if_pos rfl]]
    rw [show (renderEntry f :: rest'.map renderEntry) = (f :: rest').map renderEntry from rfl,
      hj]
    rfl

/-- Closing the parser record built from an entry's header and summary
lines recovers the entry. -/
lemma flush_cur_eq (e : ChapterEntry) (hs : normaliseWhitespace e.summary = e.summary) :
    flushStructured (e.number, e.title, [e.summary]) = e := by
  rw [flushStructured]
  show (⟨e.number, e.title, normaliseWhitespace e.summary⟩ : ChapterEntry) = e
  rw [hs]

/-- The parser record of the header's captured groups is the entry's
own record. -/
lemma newCur_eq (e : ChapterEntry) (hn : 0 < e.number)
    (ht : normaliseWhitespace e.title = e.title) :
    (((e.number.toNat : Nat) : Int), normaliseWhitespace e.title, ([] : List Str))
      = (e.number, e.title, ([] : List Str)) := by
  rw [ht]
  congr 1
  omega

/-- Running the structured line loop over the remaining rendered lines
flushes the current entry and parses the rest. -/
lemma parse_restLines : ∀ (rest : List ChapterEntry) (e : ChapterEntry),
    C2cond e → 0 < e.number → (∀ f ∈ rest, C2cond f ∧ 0 < f.number) →
    parseStructuredLines (some (e.number, e.title, [e.summary])) (restLines rest)
      = e :: rest := by
  intro rest
  induction rest with
  | nil =>
    intro e he hn _
    rw [restLines, parseStructuredLines, flush_cur_eq e he.2.2.1]
  | cons f rest' ih =>
    intro e he hn hrest
    have hf := hrest f (List.mem_cons_self _ _)
    have hfs : strip f.summary = f.summary :=
      strip_eq_self_of _ (isNormalised_head _ (isNormalised_of_fix _ hf.1.2.2.1))
        (isNormalised_revhead _ (isNormalised_of_fix _ hf.1.2.2.1))
    rw [restLines]
    show parseStructuredLines (some (e.number, e.title, [e.summary]))
      (headerLineOf f :: f.summary :: restLines rest') = e :: f :: rest'
    rw [parseStructuredLines, headerMatch_headerLineOf f hf.2 hf.1.1]
    dsimp only
    rw [newCur_eq f hf.2 hf.1.1, flush_cur_eq e he.2.2.1]
    rw [parseStructuredLines, hf.1.2.2.2.2]
    dsimp only
    rw [hfs, if_neg hf.1.2.2.2.1]
    rw [show ([] : List Str) ++ [f.summary] = [f.summary] from rfl]
    rw [ih f hf.1 hf.2 fun g hg => hrest g (List.mem_cons_of_mem _ hg)]

/-- The structured line loop parses the rendered line stream back to
the original entries. -/
lemma parseStructured_render (e : ChapterEntry) (rest : List ChapterEntry)
    (he : C2cond e) (hn : 0 < e.number)
    (hrest : ∀ f ∈ rest, C2cond f ∧ 0 < f.number) :
    parseStructuredLines none (headerLineOf e :: e.summary :: restLines rest)
      = e :: rest := by
  have hes : strip e.summary = e.summary :=
    strip_eq_self_of _ (isNormalised_head _ (isNormalised_of_fix _ he.2.2.1))
      (isNormalised_revhead _ (isNormalised_of_fix _ he.2.2.1))
  rw [parseStructuredLines, headerMatch_headerLineOf e hn he.1]
  dsimp only
  rw [newCur_eq e hn he.1]
  rw [parseStructuredLines, he.2.2.2.2]
  dsimp only
  rw [hes, if_neg he.2.2.2.1]
  rw [show ([] : List Str) ++ [e.summary] = [e.summary] from rfl]
  exact parse_restLines rest e he hn hrest

/-- Sequential numbering makes every number positive. -/
lemma pos_of_numbersSequential (entries : List ChapterEntry)
    (h : numbersSequential entries) : ∀ e ∈ entries, 0 < e.number := by
  intro e he
  rw [numbersSequential] at h
  have : e.number ∈ (List.range' 1 entries.length).map Int.ofNat := by
    rw [← h]
    exact List.mem_map_of_mem ChapterEntry.number he
  obtain ⟨m, hm, hme⟩ := List.mem_map.mp this
  rw [List.mem_range'] at hm
  rw [← hme]
  exact Int.ofNat_pos.mpr (by omega)

/-- C2 counterexample: the single entry `{1, "a  b", "s"}` satisfies
the claim's hypotheses — sequential number, non-empty trimmed fields,
and no substring of either field matches the header (or legacy)
grammar — yet the parse of its rendering normalises the double space,
so neither `parse(render(es)) = es` nor
`render(parse(render(es))) = render(es)` holds. -/
theorem C2_roundtrip_counterexample :
    numbersSequential [⟨1, "a  b".toList, "s".toList⟩]
    ∧ (∀ e ∈ ([⟨1, "a  b".toList, "s".toList⟩] : List ChapterEntry),
        strip e.title ≠ [] ∧ strip e.summary ≠ [])
    ∧ (∀ sub ∈ ("a  b".toList).tails.flatMap List.inits,
        headerMatch sub = none ∧ legacyMatch sub = none)
    ∧ (∀ sub ∈ ("s".toList).tails.flatMap List.inits,
        headerMatch sub = none ∧ legacyMatch sub = none)
    ∧ parseChapterEntries (renderChapterEntries [⟨1, "a  b".toList, "s".toList⟩])
        ≠ [⟨1, "a  b".toList, "s".toList⟩]
    ∧ renderChapterEntries (parseChapterEntries
        (renderChapterEntries [⟨1, "a  b".toList, "s".toList⟩]))
        ≠ renderChapterEntries [⟨1, "a  b".toList, "s".toList⟩] := by decide

/-- C2 amended: for entries numbered `1..N` in order whose titles and
summaries are non-empty fixpoints of the whitespace normalisation and
whose summaries do not themselves match the header pattern,
`parse(render(entries))` reproduces the entries exactly, and hence
`render(parse(render(entries))) = render(entries)`. -/
theorem C2_roundtrip_normalised (entries : List ChapterEntry)
    (hseq : numbersSequential entries)
    (hcond : ∀ e ∈ entries, C2cond e) :
    parseChapterEntries (renderChapterEntries entries) = entries
      ∧ renderChapterEntries (parseChapterEntries (renderChapterEntries entries))
        = renderChapterEntries entries := by
  have hmain : parseChapterEntries (renderChapterEntries entries) = entries := by
    cases entries with
    | nil => rfl
    | cons e rest =>
      have hpos := pos_of_numbersSequential _ hseq
      have he : C2cond e ∧ 0 < e.number :=
        ⟨hcond e (List.mem_cons_self _ _), hpos e (List.mem_cons_self _ _)⟩
      have hrest : ∀ f ∈ rest, C2cond f ∧ 0 < f.number := fun f hf =>
        ⟨hcond f (List.mem_cons_of_mem _ hf), hpos f (List.mem_cons_of_mem _ hf)⟩
      have hren := renderChapterEntries_NF e rest he hrest
      have hlines : splitlines (renderChapterEntries (e :: rest))
          = headerLineOf e :: e.summary :: restLines rest := by
        rw [hren]
        exact splitlines_join rest e he.1 he.2 hrest
      have htext : renderChapterEntries (e :: rest) ≠ [] := by
        rw [hren, List.map_cons]
        refine joinSep_cons_ne_nil _ _ _ ?_
        rw [renderEntry_NF e he.2 he.1]
        exact append_ne_nil_left _ _ (headerLineOf_ne_nil e)
      have hstructured : parseStructuredChapterEntries (renderChapterEntries (e :: rest))
          = e :: rest := by
        rw [parseStructuredChapterEntries, hlines]
        rw [if_pos (by
          refine List.any_eq_true.mpr ⟨headerLineOf e, List.mem_cons_self _ _, ?_⟩
          rw [headerMatch_headerLineOf e he.2 he.1.1]
          rfl)]
        exact parseStructured_render e rest he.1 he.2 hrest
      rw [parseChapterEntries, if_neg htext]
      simp only [hstructured]
      rw [if_neg (by simp)]
  exact ⟨hmain, by rw [hmain]⟩

/-- Witness for C2's amended round trip at a concrete two-chapter
list. -/
theorem C2_roundtrip_witness :
    parseChapterEntries (renderChapterEntries
        [⟨1, "Arrival".toList, "She steps off.".toList⟩,
         ⟨2, "The Offer".toList, "A job.".toList⟩])
      = [⟨1, "Arrival".toList, "She steps off.".toList⟩,
         ⟨2, "The Offer".toList, "A job.".toList⟩] :=
  (C2_roundtrip_normalised
    [⟨1, "Arrival".toList, "She steps off.".toList⟩,
     ⟨2, "The Offer".toList, "A job.".toList⟩]
    (by decide) (by decide)).1

end BookPipeline
